import Mathlib

/-!
# le3d geometry kernel (`engine/geometry_scalar.h`): a shallow embedding

The C++ `float` is read as an element of a field `F`.  Every definition is
polymorphic in `F` and computable (it runs on `ℚ`); the theorems instantiate
`F := ℝ`, which is the "exact arithmetic" reading of the float code.

The three libm functions the source calls (`sqrtf`, `cosf`, `sinf`) are passed
to the definitions that call them as explicit arguments; the theorems pass
`Real.sqrt`, `Real.cos` and `Real.sin`.

Where a property depends on the rounding of `float`, the operation is embedded a
second time with every arithmetic result passed through a rounding function,
and `round32` gives the binary32 value of a rational number.

`a / b` is the field division.  In a field `a / 0 = 0`, which is not what a
float division does.  `normalize` and `inverse3x3` test their divisor against
zero before dividing; the `Axis` constructor does not, so the theorems about
`Axis` and `Plan` also state that the divisor `norm` is positive.
-/

/-- The type of Mathlib's 3×3 matrices over `F`; the specification side of the
statements about the leading 3×3 block of a transform. -/
abbrev Mat3 (F : Type) : Type := Matrix (Fin 3) (Fin 3) F

namespace LE3D

/-! ## Vertex -/

/-- The `struct Vertex`: `float x, y, z, w`. -/
structure Vertex (F : Type) where
  x : F
  y : F
  z : F
  w : F

namespace Vertex

variable {F : Type} [Field F]

/-- The constructor `Vertex()`: `(0, 0, 0, 1)`. -/
def new : Vertex F := ⟨0, 0, 0, 1⟩

/-- The constructor `Vertex(float px, float py, float pz)`: `w` is set to 1. -/
def ofXYZ (px py pz : F) : Vertex F := ⟨px, py, pz, 1⟩

/-- The `operator - (Vertex v)`: `Vertex r; r.x = x - v.x; ...`, `r.w` stays 1. -/
def sub (a v : Vertex F) : Vertex F :=
  let r : Vertex F := new
  let r := { r with x := a.x - v.x }
  let r := { r with y := a.y - v.y }
  let r := { r with z := a.z - v.z }
  r

/-- The `operator == (Vertex v)`: compares `x`, `y`, `z` only. -/
def eq [DecidableEq F] (a v : Vertex F) : Bool :=
  decide (a.x = v.x) && decide (a.y = v.y) && decide (a.z = v.z)

/-- The method `dot`: `x * v.x + y * v.y + z * v.z`. -/
def dot (a v : Vertex F) : F :=
  a.x * v.x + a.y * v.y + a.z * v.z

/-- The method `cross`. -/
def cross (a v : Vertex F) : Vertex F :=
  let c : Vertex F := new
  let c := { c with x := a.y * v.z - v.y * a.z }
  let c := { c with y := -a.x * v.z + v.x * a.z }
  let c := { c with z := a.x * v.y - v.x * a.y }
  c

/-- The method `norm`: `sqrtf(dot(*this))`. -/
def norm (sqrtf : F → F) (a : Vertex F) : F :=
  sqrtf (a.dot a)

/-- The method `normalize`; the mutated receiver is the result. -/
def normalize [DecidableEq F] (sqrtf : F → F) (a : Vertex F) : Vertex F :=
  let d := a.norm sqrtf
  if d = 0 then
    { x := 0, y := 0, z := 0, w := 1 }
  else
    let d := 1 / d
    { x := a.x * d, y := a.y * d, z := a.z * d, w := a.w * d }

/-- The static method `spherical(azi, inc, dist)`. -/
def spherical (cosf sinf : F → F) (azi inc dist : F) : Vertex F :=
  let r : Vertex F := new
  let r := { r with x := cosf azi * cosf inc * dist }
  let r := { r with y := sinf inc * dist }
  let r := { r with z := -sinf azi * cosf inc * dist }
  r

/-- The `operator + (Vertex v)`: `Vertex r; r.x = x + v.x; ...`, `r.w` stays 1. -/
def add (a v : Vertex F) : Vertex F :=
  let r : Vertex F := new
  let r := { r with x := a.x + v.x }
  let r := { r with y := a.y + v.y }
  let r := { r with z := a.z + v.z }
  r

/-- The `operator * (float v)`: scales `x`, `y`, `z`; `r.w` stays 1. -/
def scaleBy (a : Vertex F) (v : F) : Vertex F :=
  let r : Vertex F := new
  let r := { r with x := a.x * v }
  let r := { r with y := a.y * v }
  let r := { r with z := a.z * v }
  r

/-- Specification side: the coordinate triple `(x, y, z)` of a vertex. -/
def xyz (v : Vertex F) : Fin 3 → F :=
  ![v.x, v.y, v.z]

/-- Specification side: the three points named by the `x`, `y`, `z` of three
vertices lie on one line of Euclidean 3-space. -/
def Collinear3 (v1 v2 v3 : Vertex ℝ) : Prop :=
  Collinear ℝ ({(WithLp.equiv 2 (Fin 3 → ℝ)).symm v1.xyz,
    (WithLp.equiv 2 (Fin 3 → ℝ)).symm v2.xyz,
    (WithLp.equiv 2 (Fin 3 → ℝ)).symm v3.xyz} : Set (EuclideanSpace ℝ (Fin 3)))

end Vertex

/-! ## The constants of `namespace Geo` -/

namespace Geo

variable {F : Type} [Field F]

/-- The constant `Geo::up`. -/
def up : Vertex F := Vertex.ofXYZ 0 1 0
/-- The constant `Geo::down`. -/
def down : Vertex F := Vertex.ofXYZ 0 (-1) 0
/-- The constant `Geo::front`. -/
def front : Vertex F := Vertex.ofXYZ 0 0 (-1)
/-- The constant `Geo::back`. -/
def back : Vertex F := Vertex.ofXYZ 0 0 1
/-- The constant `Geo::left`. -/
def left : Vertex F := Vertex.ofXYZ (-1) 0 0
/-- The constant `Geo::right`. -/
def right : Vertex F := Vertex.ofXYZ 1 0 0
/-- The constant `Geo::zero`. -/
def zero : Vertex F := Vertex.ofXYZ 0 0 0

end Geo

/-! ## Axis -/

/-- The `struct Axis`: `Vertex origin; Vertex axis; float norm`. -/
structure Axis (F : Type) where
  origin : Vertex F
  axis : Vertex F
  norm : F

namespace Axis

variable {F : Type} [Field F]

/-- The constructor `Axis()`.  The two `Vertex` members are default-constructed
(`w = 1`) before their `x`, `y`, `z` are assigned. -/
def new : Axis F :=
  let origin : Vertex F := Vertex.new
  let axis : Vertex F := Vertex.new
  let origin := { origin with x := 0, y := 0, z := 0 }
  let axis := { axis with x := 0, y := 0, z := 1 }
  { origin := origin, axis := axis, norm := 1 }

/-- The constructor `Axis(Vertex v1, Vertex v2)`.  The two `Vertex` members are
default-constructed (`w = 1`) before their `x`, `y`, `z` are assigned. -/
def ofPoints (sqrtf : F → F) (v1 v2 : Vertex F) : Axis F :=
  let origin : Vertex F := Vertex.new
  let axis : Vertex F := Vertex.new
  let origin := { origin with x := v1.x, y := v1.y, z := v1.z }
  let dx := v2.x - v1.x
  let dy := v2.y - v1.y
  let dz := v2.z - v1.z
  let norm := sqrtf (dx * dx + dy * dy + dz * dz)
  let axis := { axis with x := dx / norm, y := dy / norm, z := dz / norm }
  { origin := origin, axis := axis, norm := norm }

end Axis

/-! ## Plan -/

/-- The `struct Plan`: `Axis xAxis; Axis yAxis; Axis zAxis`. -/
structure Plan (F : Type) where
  xAxis : Axis F
  yAxis : Axis F
  zAxis : Axis F

namespace Plan

variable {F : Type} [Field F]

/-- The constructor `Plan(Vertex v1, Vertex v2, Vertex v3)`. -/
def ofPoints (sqrtf : F → F) (v1 v2 v3 : Vertex F) : Plan F :=
  let xAxis := Axis.ofPoints sqrtf v1 v2
  let yAxis := Axis.ofPoints sqrtf v1 v3
  let tv1 : Vertex F := Vertex.new
  let tv2 : Vertex F := Vertex.new
  let tv1 := { tv1 with x := xAxis.axis.z * yAxis.axis.y }
  let tv1 := { tv1 with y := xAxis.axis.x * yAxis.axis.z }
  let tv1 := { tv1 with z := xAxis.axis.y * yAxis.axis.x }
  let tv2 := { tv2 with x := xAxis.axis.y * yAxis.axis.z }
  let tv2 := { tv2 with y := xAxis.axis.z * yAxis.axis.x }
  let tv2 := { tv2 with z := xAxis.axis.x * yAxis.axis.y }
  let zAxis := Axis.ofPoints sqrtf tv1 tv2
  let zAxis := { zAxis with origin := { zAxis.origin with x := v1.x } }
  let zAxis := { zAxis with origin := { zAxis.origin with y := v1.y } }
  let zAxis := { zAxis with origin := { zAxis.origin with z := v1.z } }
  { xAxis := xAxis, yAxis := yAxis, zAxis := zAxis }

end Plan

/-! ## Matrix -/

/-- The `struct Matrix`: `float mat[4][4]`, indexed `mat[row][column]`. -/
structure Matrix (F : Type) where
  mat : Fin 4 → Fin 4 → F

namespace Matrix

variable {F : Type} [Field F]

/-- The assignment `mat[i][j] = v`. -/
def set (m : Matrix F) (i j : Fin 4) (v : F) : Matrix F :=
  ⟨fun a b => if a = i ∧ b = j then v else m.mat a b⟩

/-- The method `identity()` (also the constructor `Matrix()`): all sixteen
entries are assigned. -/
def identity : Matrix F :=
  ⟨![![1, 0, 0, 0],
     ![0, 1, 0, 0],
     ![0, 0, 1, 0],
     ![0, 0, 0, 1]]⟩

/-- The method `zero()`: `memset(mat, 0, sizeof(float) * 16)`. -/
def zero : Matrix F :=
  ⟨fun _ _ => 0⟩

/-- The `operator * (Vertex v)`; it reads `v.x`, `v.y`, `v.z` and returns
`Vertex(x, y, z)`. -/
def mulVertex (self : Matrix F) (v : Vertex F) : Vertex F :=
  let mat := self.mat
  let x := v.x * mat 0 0 + v.y * mat 0 1 + v.z * mat 0 2 + mat 0 3
  let y := v.x * mat 1 0 + v.y * mat 1 1 + v.z * mat 1 2 + mat 1 3
  let z := v.x * mat 2 0 + v.y * mat 2 1 + v.z * mat 2 2 + mat 2 3
  Vertex.ofXYZ x y z

/-- The `operator + (Matrix m)`: the loop assigns the four entries of every
row `i` of `r`. -/
def add (self m : Matrix F) : Matrix F :=
  let mat := self.mat
  ⟨fun i =>
    ![mat i 0 + m.mat i 0,
      mat i 1 + m.mat i 1,
      mat i 2 + m.mat i 2,
      mat i 3 + m.mat i 3]⟩

/-- The `operator * (Matrix m)`: the loop assigns the four entries of every
row `i` of `r`. -/
def mul (self m : Matrix F) : Matrix F :=
  let mat := self.mat
  ⟨fun i =>
    ![mat i 0 * m.mat 0 0 + mat i 1 * m.mat 1 0 + mat i 2 * m.mat 2 0 + mat i 3 * m.mat 3 0,
      mat i 0 * m.mat 0 1 + mat i 1 * m.mat 1 1 + mat i 2 * m.mat 2 1 + mat i 3 * m.mat 3 1,
      mat i 0 * m.mat 0 2 + mat i 1 * m.mat 1 2 + mat i 2 * m.mat 2 2 + mat i 3 * m.mat 3 2,
      mat i 0 * m.mat 0 3 + mat i 1 * m.mat 1 3 + mat i 2 * m.mat 2 3 + mat i 3 * m.mat 3 3]⟩

/-- The method `translate(dx, dy, dz)`; the mutated receiver is the result. -/
def translate (dx dy dz : F) (self : Matrix F) : Matrix F :=
  let self := self.set 0 3 (self.mat 0 3 + dx)
  let self := self.set 1 3 (self.mat 1 3 + dy)
  let self := self.set 2 3 (self.mat 2 3 + dz)
  self

/-- The method `scale(sx, sy, sz)`; the mutated receiver is the result. -/
def scale (sx sy sz : F) (self : Matrix F) : Matrix F :=
  let m : Matrix F := identity
  let m := m.set 0 0 (m.mat 0 0 * sx)
  let m := m.set 1 1 (m.mat 1 1 * sy)
  let m := m.set 2 2 (m.mat 2 2 * sz)
  m.mul self

/-- The method `rotateX(a)`; the mutated receiver is the result. -/
def rotateX (cosf sinf : F → F) (a : F) (self : Matrix F) : Matrix F :=
  let m : Matrix F := identity
  let c := cosf a
  let s := sinf a
  let m := m.set 1 1 c
  let m := m.set 1 2 (-s)
  let m := m.set 2 1 s
  let m := m.set 2 2 c
  m.mul self

/-- The method `rotateY(a)`; the mutated receiver is the result. -/
def rotateY (cosf sinf : F → F) (a : F) (self : Matrix F) : Matrix F :=
  let m : Matrix F := identity
  let c := cosf a
  let s := sinf a
  let m := m.set 0 0 c
  let m := m.set 0 2 s
  let m := m.set 2 0 (-s)
  let m := m.set 2 2 c
  m.mul self

/-- The method `rotateZ(a)`; the mutated receiver is the result. -/
def rotateZ (cosf sinf : F → F) (a : F) (self : Matrix F) : Matrix F :=
  let m : Matrix F := identity
  let c := cosf a
  let s := sinf a
  let m := m.set 0 0 c
  let m := m.set 0 1 (-s)
  let m := m.set 1 0 s
  let m := m.set 1 1 c
  m.mul self

/-- The method `rotate(ax, ay, az)`: `rotateY(ay); rotateZ(az); rotateX(ax);`. -/
def rotate (cosf sinf : F → F) (ax ay az : F) (self : Matrix F) : Matrix F :=
  let self := rotateY cosf sinf ay self
  let self := rotateZ cosf sinf az self
  let self := rotateX cosf sinf ax self
  self

/-- The method `inverse3x3()`. -/
def inverse3x3 [DecidableEq F] (self : Matrix F) : Matrix F :=
  let mat := self.mat
  let d := mat 0 0 * (mat 1 1 * mat 2 2 - mat 2 1 * mat 1 2)
         - mat 0 1 * (mat 1 0 * mat 2 2 - mat 1 2 * mat 2 0)
         + mat 0 2 * (mat 1 0 * mat 2 1 - mat 1 1 * mat 2 0)
  let m : Matrix F := identity
  if d = 0 then
    zero
  else
    let d := 1 / d
    let m := m.set 0 0 ( (mat 1 1 * mat 2 2 - mat 2 1 * mat 1 2) * d)
    let m := m.set 0 1 (-(mat 0 1 * mat 2 2 - mat 2 1 * mat 0 2) * d)
    let m := m.set 0 2 ( (mat 0 1 * mat 1 2 - mat 1 1 * mat 0 2) * d)
    let m := m.set 1 0 (-(mat 1 0 * mat 2 2 - mat 2 0 * mat 1 2) * d)
    let m := m.set 1 1 ( (mat 0 0 * mat 2 2 - mat 2 0 * mat 0 2) * d)
    let m := m.set 1 2 (-(mat 0 0 * mat 1 2 - mat 1 0 * mat 0 2) * d)
    let m := m.set 2 0 ( (mat 1 0 * mat 2 1 - mat 2 0 * mat 1 1) * d)
    let m := m.set 2 1 (-(mat 0 0 * mat 2 1 - mat 2 0 * mat 0 1) * d)
    let m := m.set 2 2 ( (mat 0 0 * mat 1 1 - mat 1 0 * mat 0 1) * d)
    m

/-- The method `rotateBackUp(back, up, a)`; the mutated receiver is the result.
`back` and `up` are by-value parameters, normalized in place. -/
def rotateBackUp [DecidableEq F] (sqrtf cosf sinf : F → F) (back up : Vertex F) (a : F)
    (self : Matrix F) : Matrix F :=
  let back := back.normalize sqrtf
  let up := up.normalize sqrtf
  let right := up.cross back
  let m1 : Matrix F := identity
  let m1 := m1.set 0 0 right.x
  let m1 := m1.set 0 1 right.y
  let m1 := m1.set 0 2 right.z
  let m1 := m1.set 0 3 right.w
  let m1 := m1.set 1 0 up.x
  let m1 := m1.set 1 1 up.y
  let m1 := m1.set 1 2 up.z
  let m1 := m1.set 1 3 up.w
  let m1 := m1.set 2 0 back.x
  let m1 := m1.set 2 1 back.y
  let m1 := m1.set 2 2 back.z
  let m1 := m1.set 2 3 back.w
  let m2 : Matrix F := identity
  let m2 := rotateY cosf sinf a m2
  let m3 : Matrix F := identity
  let m3 := m3.set 0 0 right.x
  let m3 := m3.set 1 0 right.y
  let m3 := m3.set 2 0 right.z
  let m3 := m3.set 3 0 0
  let m3 := m3.set 0 1 up.x
  let m3 := m3.set 1 1 up.y
  let m3 := m3.set 2 1 up.z
  let m3 := m3.set 3 1 0
  let m3 := m3.set 0 2 back.x
  let m3 := m3.set 1 2 back.y
  let m3 := m3.set 2 2 back.z
  let m3 := m3.set 3 2 0
  let m3 := m3.set 0 3 0
  let m3 := m3.set 1 3 0
  let m3 := m3.set 2 3 0
  let m3 := m3.set 3 3 1
  ((m3.mul m2).mul m1).mul self

/-- The method `rotateBackRight(back, right, a)`; the mutated receiver is the
result.  The last five assignments to `m3` are those of the source:
`mat[3][2] = 1`, then `mat[3][3]` four times. -/
def rotateBackRight [DecidableEq F] (sqrtf cosf sinf : F → F) (back right : Vertex F) (a : F)
    (self : Matrix F) : Matrix F :=
  let back := back.normalize sqrtf
  let right := right.normalize sqrtf
  let up := back.cross right
  let m1 : Matrix F := identity
  let m1 := m1.set 0 0 right.x
  let m1 := m1.set 0 1 right.y
  let m1 := m1.set 0 2 right.z
  let m1 := m1.set 0 3 right.w
  let m1 := m1.set 1 0 up.x
  let m1 := m1.set 1 1 up.y
  let m1 := m1.set 1 2 up.z
  let m1 := m1.set 1 3 up.w
  let m1 := m1.set 2 0 back.x
  let m1 := m1.set 2 1 back.y
  let m1 := m1.set 2 2 back.z
  let m1 := m1.set 2 3 back.w
  let m2 : Matrix F := identity
  let m2 := rotateY cosf sinf a m2
  let m3 : Matrix F := identity
  let m3 := m3.set 0 0 right.x
  let m3 := m3.set 1 0 right.y
  let m3 := m3.set 2 0 right.z
  let m3 := m3.set 3 0 0
  let m3 := m3.set 0 1 up.x
  let m3 := m3.set 1 1 up.y
  let m3 := m3.set 2 1 up.z
  let m3 := m3.set 3 1 0
  let m3 := m3.set 0 2 back.x
  let m3 := m3.set 1 2 back.y
  let m3 := m3.set 2 2 back.z
  let m3 := m3.set 3 2 1
  let m3 := m3.set 3 3 0
  let m3 := m3.set 3 3 0
  let m3 := m3.set 3 3 0
  let m3 := m3.set 3 3 1
  ((m3.mul m2).mul m1).mul self

/-- The method `alignBackUp(back, up)`; the mutated receiver is the result. -/
def alignBackUp [DecidableEq F] (sqrtf : F → F) (back up : Vertex F)
    (self : Matrix F) : Matrix F :=
  let back := back.normalize sqrtf
  let up := up.normalize sqrtf
  let right := up.cross back
  let m : Matrix F := identity
  let m := m.set 0 0 right.x
  let m := m.set 1 0 right.y
  let m := m.set 2 0 right.z
  let m := m.set 3 0 0
  let m := m.set 0 1 up.x
  let m := m.set 1 1 up.y
  let m := m.set 2 1 up.z
  let m := m.set 3 1 0
  let m := m.set 0 2 back.x
  let m := m.set 1 2 back.y
  let m := m.set 2 2 back.z
  let m := m.set 3 2 0
  let m := m.set 0 3 0
  let m := m.set 1 3 0
  let m := m.set 2 3 0
  let m := m.set 3 3 1
  m.mul self

/-- The method `alignBackRight(back, right)`; the mutated receiver is the
result. -/
def alignBackRight [DecidableEq F] (sqrtf : F → F) (back right : Vertex F)
    (self : Matrix F) : Matrix F :=
  let back := back.normalize sqrtf
  let right := right.normalize sqrtf
  let up := back.cross right
  let m : Matrix F := identity
  let m := m.set 0 0 right.x
  let m := m.set 1 0 right.y
  let m := m.set 2 0 right.z
  let m := m.set 3 0 0
  let m := m.set 0 1 up.x
  let m := m.set 1 1 up.y
  let m := m.set 2 1 up.z
  let m := m.set 3 1 0
  let m := m.set 0 2 back.x
  let m := m.set 1 2 back.y
  let m := m.set 2 2 back.z
  let m := m.set 3 2 0
  let m := m.set 0 3 0
  let m := m.set 1 3 0
  let m := m.set 2 3 0
  let m := m.set 3 3 1
  m.mul self

/-! ### Specification-side notions used to state the properties -/

/-- Specification side: the leading 3×3 block of a transform, as a Mathlib
matrix (rows and columns 0..2 of `mat`). -/
def block3 (m : Matrix F) : Mat3 F :=
  Matrix.of fun i j => m.mat i.castSucc j.castSucc

/-- Specification side: the translation matrix `T`, the identity matrix with
`(dx, dy, dz)` written into rows 0..2 of its last column. -/
def translationMatrix (dx dy dz : F) : Matrix F :=
  ⟨![![1, 0, 0, dx],
     ![0, 1, 0, dy],
     ![0, 0, 1, dz],
     ![0, 0, 0, 1]]⟩

/-- Specification side: the fourth row of the matrix is `(0, 0, 0, 1)`. -/
def IsAffine (m : Matrix F) : Prop :=
  m.mat 3 0 = 0 ∧ m.mat 3 1 = 0 ∧ m.mat 3 2 = 0 ∧ m.mat 3 3 = 1

/-- The method `inverse3x3()` with the result of every `float` multiplication,
subtraction, addition and division passed through `fl` (the unary minus is
exact).  With `fl := id` this is `inverse3x3`; with `fl := round32` it is the
binary32 reading of the method. -/
def inverse3x3Rounded [DecidableEq F] (fl : F → F) (self : Matrix F) : Matrix F :=
  let mat := self.mat
  let d := fl (fl (fl (mat 0 0 * fl (fl (mat 1 1 * mat 2 2) - fl (mat 2 1 * mat 1 2)))
             - fl (mat 0 1 * fl (fl (mat 1 0 * mat 2 2) - fl (mat 1 2 * mat 2 0))))
         + fl (mat 0 2 * fl (fl (mat 1 0 * mat 2 1) - fl (mat 1 1 * mat 2 0))))
  let m : Matrix F := identity
  if d = 0 then
    zero
  else
    let d := fl (1 / d)
    let m := m.set 0 0 (fl ( fl (fl (mat 1 1 * mat 2 2) - fl (mat 2 1 * mat 1 2)) * d))
    let m := m.set 0 1 (fl (-fl (fl (mat 0 1 * mat 2 2) - fl (mat 2 1 * mat 0 2)) * d))
    let m := m.set 0 2 (fl ( fl (fl (mat 0 1 * mat 1 2) - fl (mat 1 1 * mat 0 2)) * d))
    let m := m.set 1 0 (fl (-fl (fl (mat 1 0 * mat 2 2) - fl (mat 2 0 * mat 1 2)) * d))
    let m := m.set 1 1 (fl ( fl (fl (mat 0 0 * mat 2 2) - fl (mat 2 0 * mat 0 2)) * d))
    let m := m.set 1 2 (fl (-fl (fl (mat 0 0 * mat 1 2) - fl (mat 1 0 * mat 0 2)) * d))
    let m := m.set 2 0 (fl ( fl (fl (mat 1 0 * mat 2 1) - fl (mat 2 0 * mat 1 1)) * d))
    let m := m.set 2 1 (fl (-fl (fl (mat 0 0 * mat 2 1) - fl (mat 2 0 * mat 0 1)) * d))
    let m := m.set 2 2 (fl ( fl (fl (mat 0 0 * mat 1 1) - fl (mat 1 0 * mat 0 1)) * d))
    m

/-- The matrix with rows `(5793, 5792, 0, 0)`, `(5794, 5793, 0, 0)`, `(0, 0, 1, 0)`,
`(0, 0, 0, 1)`: a default-constructed `Matrix` after four entry assignments. -/
def nearSingular : Matrix ℚ :=
  let m : Matrix ℚ := identity
  let m := m.set 0 0 5793
  let m := m.set 0 1 5792
  let m := m.set 1 0 5794
  let m := m.set 1 1 5793
  m

end Matrix

/-! ## The binary32 reading of `float` -/

/-- Rounding of a rational number to the nearest integer, ties to the even
integer. -/
def roundHalfEven (x : ℚ) : ℤ :=
  if x - ⌊x⌋ < 1 / 2 then ⌊x⌋
  else if 1 / 2 < x - ⌊x⌋ then ⌊x⌋ + 1
  else if ⌊x⌋ % 2 = 0 then ⌊x⌋
  else ⌊x⌋ + 1

/-- The binary32 value (IEEE 754 single precision, round to nearest, ties to
even) of a rational number `q`: with `2^e ≤ |q| < 2^(e+1)` the nearest multiple of
`2^(e-23)` (24 significant bits), and the nearest multiple of `2^(-149)` in the
subnormal range `e < -126`.  Overflow to infinity is not modelled: the value is
the binary32 value only for `|q| < 2^128`. -/
def round32 (q : ℚ) : ℚ :=
  let e := max (Int.log 2 |q|) (-126)
  roundHalfEven (q / 2 ^ (e - 23)) * 2 ^ (e - 23)

/-! ## Theorems -/

section VertexTheorems

open Vertex

/-- The sum of three squares vanishes only when the three numbers do. -/
theorem sumsq_eq_zero_iff (a b c : ℝ) :
    a * a + b * b + c * c = 0 ↔ a = 0 ∧ b = 0 ∧ c = 0 := by
  constructor
  · intro h
    have ha := mul_self_nonneg a
    have hb := mul_self_nonneg b
    have hc := mul_self_nonneg c
    refine ⟨?_, ?_, ?_⟩ <;> apply mul_self_eq_zero.mp <;> linarith
  · rintro ⟨rfl, rfl, rfl⟩
    ring

/-- The sum of three squares is non-negative. -/
theorem sumsq_nonneg (a b c : ℝ) : 0 ≤ a * a + b * b + c * c := by
  have ha := mul_self_nonneg a
  have hb := mul_self_nonneg b
  have hc := mul_self_nonneg c
  linarith

/-- The sum of three squares is positive as soon as one of them is non-zero. -/
theorem sumsq_pos (a b c : ℝ) (h : a ≠ 0 ∨ b ≠ 0 ∨ c ≠ 0) :
    0 < a * a + b * b + c * c := by
  have h0 := sumsq_nonneg a b c
  rcases h0.lt_or_eq with h1 | h1
  · exact h1
  · exfalso
    have h2 := (sumsq_eq_zero_iff a b c).mp h1.symm
    rcases h with h | h | h
    · exact h h2.1
    · exact h h2.2.1
    · exact h h2.2.2

/-- The real `norm` of a vertex vanishes exactly when `x = y = z = 0`. -/
theorem Vertex.norm_eq_zero_iff (v : Vertex ℝ) :
    v.norm Real.sqrt = 0 ↔ v.x = 0 ∧ v.y = 0 ∧ v.z = 0 := by
  unfold Vertex.norm Vertex.dot
  have h0 : 0 ≤ v.x * v.x + v.y * v.y + v.z * v.z :=
    (sumsq_nonneg v.x v.y v.z)
  rw [Real.sqrt_eq_zero h0]
  exact sumsq_eq_zero_iff v.x v.y v.z

/-- Claim C1. In real arithmetic: a vertex whose `(x, y, z)` is not all zero has a
non-zero `norm` (so `normalize` divides by a non-zero number) and its
`normalize()` has `norm()` equal to 1; a vertex with `x = y = z = 0`, whatever
its `w`, normalizes to exactly `(0, 0, 0, 1)`. -/
theorem C1_normalize (v : Vertex ℝ) :
    ((v.x ≠ 0 ∨ v.y ≠ 0 ∨ v.z ≠ 0) →
        v.norm Real.sqrt ≠ 0 ∧ (v.normalize Real.sqrt).norm Real.sqrt = 1) ∧
    ((v.x = 0 ∧ v.y = 0 ∧ v.z = 0) →
        v.normalize Real.sqrt = { x := 0, y := 0, z := 0, w := 1 }) := by
  constructor
  · intro h
    have hpos := sumsq_pos v.x v.y v.z h
    have hd : v.norm Real.sqrt ≠ 0 := by
      intro h0
      have h1 := (Vertex.norm_eq_zero_iff v).mp h0
      rcases h with h | h | h
      · exact h h1.1
      · exact h h1.2.1
      · exact h h1.2.2
    refine ⟨hd, ?_⟩
    have hd2 : Real.sqrt (v.x * v.x + v.y * v.y + v.z * v.z) ≠ 0 := by
      simpa [Vertex.norm, Vertex.dot] using hd
    simp only [Vertex.normalize, if_neg hd]
    simp only [Vertex.norm, Vertex.dot]
    rw [show (v.x * (1 / Real.sqrt (v.x * v.x + v.y * v.y + v.z * v.z)) *
          (v.x * (1 / Real.sqrt (v.x * v.x + v.y * v.y + v.z * v.z))) +
        v.y * (1 / Real.sqrt (v.x * v.x + v.y * v.y + v.z * v.z)) *
          (v.y * (1 / Real.sqrt (v.x * v.x + v.y * v.y + v.z * v.z))) +
        v.z * (1 / Real.sqrt (v.x * v.x + v.y * v.y + v.z * v.z)) *
          (v.z * (1 / Real.sqrt (v.x * v.x + v.y * v.y + v.z * v.z)))) = 1 from by
      field_simp]
    exact Real.sqrt_one
  · intro h
    have hd : v.norm Real.sqrt = 0 := (Vertex.norm_eq_zero_iff v).mpr h
    simp only [Vertex.normalize, if_pos hd]

/-- C1 at `(3, 4, 0, 2)` and at the zero vector with `w = 5`. -/
theorem C1_normalize_witness :
    (Vertex.normalize Real.sqrt ({ x := 3, y := 4, z := 0, w := 2 } : Vertex ℝ)).norm
        Real.sqrt = 1 ∧
    Vertex.normalize Real.sqrt ({ x := 0, y := 0, z := 0, w := 5 } : Vertex ℝ) =
        { x := 0, y := 0, z := 0, w := 1 } :=
  ⟨((C1_normalize { x := 3, y := 4, z := 0, w := 2 }).1 (Or.inl (by norm_num))).2,
   (C1_normalize { x := 0, y := 0, z := 0, w := 5 }).2 ⟨rfl, rfl, rfl⟩⟩

end VertexTheorems

section AxisTheorems

/-- Dividing three numbers, not all zero, by the root of the sum of their
squares: the divisor is not zero and the quotients have squares summing to 1. -/
theorem unit_of_div_sqrt (a b c : ℝ) (h : a ≠ 0 ∨ b ≠ 0 ∨ c ≠ 0) :
    Real.sqrt (a * a + b * b + c * c) ≠ 0 ∧
    (a / Real.sqrt (a * a + b * b + c * c)) * (a / Real.sqrt (a * a + b * b + c * c))
      + (b / Real.sqrt (a * a + b * b + c * c)) * (b / Real.sqrt (a * a + b * b + c * c))
      + (c / Real.sqrt (a * a + b * b + c * c)) * (c / Real.sqrt (a * a + b * b + c * c)) = 1 := by
  have hpos := sumsq_pos a b c h
  have hn : Real.sqrt (a * a + b * b + c * c) ≠ 0 := (Real.sqrt_pos.mpr hpos).ne'
  have hsq := Real.mul_self_sqrt hpos.le
  refine ⟨hn, ?_⟩
  generalize Real.sqrt (a * a + b * b + c * c) = n at hn hsq
  field_simp
  linarith

/-- The Euclidean distance of two vertices, in coordinates. -/
theorem Vertex.dist_xyz (v1 v2 : Vertex ℝ) :
    dist ((WithLp.equiv 2 (Fin 3 → ℝ)).symm v1.xyz) ((WithLp.equiv 2 (Fin 3 → ℝ)).symm v2.xyz) =
      Real.sqrt ((v2.x - v1.x) * (v2.x - v1.x) + (v2.y - v1.y) * (v2.y - v1.y)
        + (v2.z - v1.z) * (v2.z - v1.z)) := by
  rw [EuclideanSpace.dist_eq, Fin.sum_univ_three]
  congr 1
  simp only [Vertex.xyz, WithLp.equiv_symm_pi_apply, Matrix.cons_val_zero,
    Matrix.cons_val_one, Matrix.head_cons, Matrix.cons_val_two, Matrix.tail_cons,
    Real.dist_eq, sq_abs]
  ring

/-- What `Axis(v1, v2)` is when the `(x, y, z)` of `v1` and `v2` differ: a
positive `norm`, a direction of unit length, and direction times `norm` is
`v2 - v1`. -/
theorem Axis.ofPoints_spec (v1 v2 : Vertex ℝ)
    (h : ¬ (v1.x = v2.x ∧ v1.y = v2.y ∧ v1.z = v2.z)) :
    0 < (Axis.ofPoints Real.sqrt v1 v2).norm ∧
    (Axis.ofPoints Real.sqrt v1 v2).axis.norm Real.sqrt = 1 ∧
    (Axis.ofPoints Real.sqrt v1 v2).axis.x * (Axis.ofPoints Real.sqrt v1 v2).norm
      = v2.x - v1.x ∧
    (Axis.ofPoints Real.sqrt v1 v2).axis.y * (Axis.ofPoints Real.sqrt v1 v2).norm
      = v2.y - v1.y ∧
    (Axis.ofPoints Real.sqrt v1 v2).axis.z * (Axis.ofPoints Real.sqrt v1 v2).norm
      = v2.z - v1.z := by
  have hne : v2.x - v1.x ≠ 0 ∨ v2.y - v1.y ≠ 0 ∨ v2.z - v1.z ≠ 0 := by
    by_contra hc
    push_neg at hc
    exact h ⟨by linarith [hc.1], by linarith [hc.2.1], by linarith [hc.2.2]⟩
  obtain ⟨hn, hu⟩ := unit_of_div_sqrt _ _ _ hne
  refine ⟨lt_of_le_of_ne (Real.sqrt_nonneg _) (Ne.symm hn), ?_, ?_, ?_, ?_⟩
  · simp only [Axis.ofPoints, Vertex.norm, Vertex.dot]
    rw [hu, Real.sqrt_one]
  · exact div_mul_cancel₀ _ hn
  · exact div_mul_cancel₀ _ hn
  · exact div_mul_cancel₀ _ hn

/-- Claim C7. When the `(x, y, z)` of `v1` and `v2` differ, `Axis(v1, v2)` has
`norm` equal to the Euclidean distance of the two points, and that `norm` is
positive (the constructor does not divide by zero); `origin` has the `x`, `y`,
`z` of `v1`; the direction `axis` has unit length, and `axis` times `norm` is
`v2 - v1` component by component. -/
theorem C7_axis_of_points (v1 v2 : Vertex ℝ)
    (h : ¬ (v1.x = v2.x ∧ v1.y = v2.y ∧ v1.z = v2.z)) :
    (Axis.ofPoints Real.sqrt v1 v2).norm =
      dist ((WithLp.equiv 2 (Fin 3 → ℝ)).symm v1.xyz)
        ((WithLp.equiv 2 (Fin 3 → ℝ)).symm v2.xyz) ∧
    0 < (Axis.ofPoints Real.sqrt v1 v2).norm ∧
    ((Axis.ofPoints Real.sqrt v1 v2).origin.x = v1.x ∧
      (Axis.ofPoints Real.sqrt v1 v2).origin.y = v1.y ∧
      (Axis.ofPoints Real.sqrt v1 v2).origin.z = v1.z) ∧
    (Axis.ofPoints Real.sqrt v1 v2).axis.norm Real.sqrt = 1 ∧
    ((Axis.ofPoints Real.sqrt v1 v2).axis.x * (Axis.ofPoints Real.sqrt v1 v2).norm
        = v2.x - v1.x ∧
      (Axis.ofPoints Real.sqrt v1 v2).axis.y * (Axis.ofPoints Real.sqrt v1 v2).norm
        = v2.y - v1.y ∧
      (Axis.ofPoints Real.sqrt v1 v2).axis.z * (Axis.ofPoints Real.sqrt v1 v2).norm
        = v2.z - v1.z) := by
  obtain ⟨hpos, hu, hx, hy, hz⟩ := Axis.ofPoints_spec v1 v2 h
  refine ⟨?_, hpos, ⟨rfl, rfl, rfl⟩, hu, hx, hy, hz⟩
  rw [Vertex.dist_xyz]
  rfl

/-- C7 at `v1 = (0, 0, 0)`, `v2 = (3, 4, 0)`: the direction has unit length. -/
theorem C7_axis_of_points_witness :
    (Axis.ofPoints Real.sqrt (Vertex.ofXYZ 0 0 0) (Vertex.ofXYZ 3 4 (0 : ℝ))).axis.norm
      Real.sqrt = 1 :=
  (C7_axis_of_points (Vertex.ofXYZ 0 0 0) (Vertex.ofXYZ 3 4 0)
    (by simp [Vertex.ofXYZ])).2.2.2.1

end AxisTheorems

section PlanTheorems

/-- When the cross product of `d` and `e` vanishes and `d` is not zero, `e` is a
multiple of `d`. -/
theorem exists_mul_of_cross_eq_zero (dx dy dz ex ey ez : ℝ)
    (cx : dy * ez - ey * dz = 0) (cy : dz * ex - ez * dx = 0) (cz : dx * ey - ex * dy = 0)
    (hd : ¬ (dx = 0 ∧ dy = 0 ∧ dz = 0)) :
    ∃ t : ℝ, ex = t * dx ∧ ey = t * dy ∧ ez = t * dz := by
  by_cases hx : dx = 0
  · by_cases hy : dy = 0
    · have hz : dz ≠ 0 := fun hz => hd ⟨hx, hy, hz⟩
      refine ⟨ez / dz, ?_, ?_, ?_⟩
      · field_simp
        linarith
      · field_simp
        linarith
      · field_simp
    · refine ⟨ey / dy, ?_, ?_, ?_⟩
      · field_simp
        linarith
      · field_simp
      · field_simp
        linarith
  · refine ⟨ex / dx, ?_, ?_, ?_⟩
    · field_simp
    · field_simp
      linarith
    · field_simp
      linarith

/-- Collinearity of three vertices in coordinates: the cross product of
`v2 - v1` and `v3 - v1` vanishes. -/
theorem Vertex.collinear3_iff (v1 v2 v3 : Vertex ℝ) :
    Vertex.Collinear3 v1 v2 v3 ↔
      (v2.y - v1.y) * (v3.z - v1.z) - (v3.y - v1.y) * (v2.z - v1.z) = 0 ∧
      (v2.z - v1.z) * (v3.x - v1.x) - (v3.z - v1.z) * (v2.x - v1.x) = 0 ∧
      (v2.x - v1.x) * (v3.y - v1.y) - (v3.x - v1.x) * (v2.y - v1.y) = 0 := by
  unfold Vertex.Collinear3
  rw [collinear_iff_of_mem
    (show (WithLp.equiv 2 (Fin 3 → ℝ)).symm v1.xyz ∈ _ from Set.mem_insert _ _)]
  constructor
  · rintro ⟨v, hv⟩
    obtain ⟨r2, h2⟩ := hv ((WithLp.equiv 2 (Fin 3 → ℝ)).symm v2.xyz) (by simp)
    obtain ⟨r3, h3⟩ := hv ((WithLp.equiv 2 (Fin 3 → ℝ)).symm v3.xyz) (by simp)
    have a0 := congrFun h2 0
    have a1 := congrFun h2 1
    have a2 := congrFun h2 2
    have b0 := congrFun h3 0
    have b1 := congrFun h3 1
    have b2 := congrFun h3 2
    simp [Vertex.xyz] at a0 a1 a2 b0 b1 b2
    rw [a0, a1, a2, b0, b1, b2]
    refine ⟨by ring, by ring, by ring⟩
  · rintro ⟨cx, cy, cz⟩
    by_cases hd : v2.x - v1.x = 0 ∧ v2.y - v1.y = 0 ∧ v2.z - v1.z = 0
    · refine ⟨(WithLp.equiv 2 (Fin 3 → ℝ)).symm ![v3.x - v1.x, v3.y - v1.y, v3.z - v1.z], ?_⟩
      intro p hp
      simp only [Set.mem_insert_iff, Set.mem_singleton_iff] at hp
      rcases hp with rfl | rfl | rfl
      · exact ⟨0, by simp⟩
      · refine ⟨0, ?_⟩
        ext i
        fin_cases i <;> simp [Vertex.xyz] <;> linarith [hd.1, hd.2.1, hd.2.2]
      · refine ⟨1, ?_⟩
        ext i
        fin_cases i <;> simp [Vertex.xyz]
    · obtain ⟨t, tx, ty, tz⟩ := exists_mul_of_cross_eq_zero _ _ _ _ _ _ cx cy cz hd
      refine ⟨(WithLp.equiv 2 (Fin 3 → ℝ)).symm ![v2.x - v1.x, v2.y - v1.y, v2.z - v1.z], ?_⟩
      intro p hp
      simp only [Set.mem_insert_iff, Set.mem_singleton_iff] at hp
      rcases hp with rfl | rfl | rfl
      · exact ⟨0, by simp⟩
      · refine ⟨1, ?_⟩
        ext i
        fin_cases i <;> simp [Vertex.xyz]
      · refine ⟨t, ?_⟩
        ext i
        fin_cases i <;> simp [Vertex.xyz] <;> linarith [tx, ty, tz]

/-- The third axis that `Plan(v1, v2, v3)` builds from two directions `X` and
`Y` with a non-zero cross product: positive `norm`, unit length, orthogonal to
`X` and to `Y`. -/
theorem Axis.ofPoints_cross (X Y : Vertex ℝ)
    (h : ¬ (X.y * Y.z - X.z * Y.y = 0 ∧ X.z * Y.x - X.x * Y.z = 0 ∧
      X.x * Y.y - X.y * Y.x = 0)) :
    0 < (Axis.ofPoints Real.sqrt
        { x := X.z * Y.y, y := X.x * Y.z, z := X.y * Y.x, w := 1 }
        { x := X.y * Y.z, y := X.z * Y.x, z := X.x * Y.y, w := 1 }).norm ∧
    (Axis.ofPoints Real.sqrt
        { x := X.z * Y.y, y := X.x * Y.z, z := X.y * Y.x, w := 1 }
        { x := X.y * Y.z, y := X.z * Y.x, z := X.x * Y.y, w := 1 }).axis.norm Real.sqrt = 1 ∧
    X.dot (Axis.ofPoints Real.sqrt
        { x := X.z * Y.y, y := X.x * Y.z, z := X.y * Y.x, w := 1 }
        { x := X.y * Y.z, y := X.z * Y.x, z := X.x * Y.y, w := 1 }).axis = 0 ∧
    Y.dot (Axis.ofPoints Real.sqrt
        { x := X.z * Y.y, y := X.x * Y.z, z := X.y * Y.x, w := 1 }
        { x := X.y * Y.z, y := X.z * Y.x, z := X.x * Y.y, w := 1 }).axis = 0 := by
  have hs := Axis.ofPoints_spec
    { x := X.z * Y.y, y := X.x * Y.z, z := X.y * Y.x, w := 1 }
    { x := X.y * Y.z, y := X.z * Y.x, z := X.x * Y.y, w := 1 }
    (by
      rintro ⟨e1, e2, e3⟩
      simp only at e1 e2 e3
      exact h ⟨by linarith, by linarith, by linarith⟩)
  refine ⟨hs.1, hs.2.1, ?_, ?_⟩
  · simp only [Axis.ofPoints, Vertex.dot]
    ring
  · simp only [Axis.ofPoints, Vertex.dot]
    ring

/-- Claim C8 fails as stated. The points `(0, 0, 0)`, `(1, 0, 0)`, `(3, 4, 0)` are not
collinear (hence distinct), and the `x` and `y` directions of their `Plan`,
`(1, 0, 0)` and `(3/5, 4/5, 0)`, have dot product `3/5`, not 0. -/
theorem C8_plan_counterexample :
    ¬ Vertex.Collinear3 (Vertex.ofXYZ 0 0 0) (Vertex.ofXYZ 1 0 0) (Vertex.ofXYZ 3 4 (0 : ℝ)) ∧
    (Plan.ofPoints Real.sqrt (Vertex.ofXYZ 0 0 0) (Vertex.ofXYZ 1 0 0)
        (Vertex.ofXYZ 3 4 0)).xAxis.axis.dot
      (Plan.ofPoints Real.sqrt (Vertex.ofXYZ 0 0 0) (Vertex.ofXYZ 1 0 0)
        (Vertex.ofXYZ 3 4 0)).yAxis.axis = 3 / 5 ∧
    (Plan.ofPoints Real.sqrt (Vertex.ofXYZ 0 0 0) (Vertex.ofXYZ 1 0 0)
        (Vertex.ofXYZ 3 4 0)).xAxis.axis.dot
      (Plan.ofPoints Real.sqrt (Vertex.ofXYZ 0 0 0) (Vertex.ofXYZ 1 0 0)
        (Vertex.ofXYZ 3 4 0)).yAxis.axis ≠ 0 := by
  have h25 : Real.sqrt (3 * 3 + 4 * 4) = 5 := by
    rw [show (3 * 3 + 4 * 4 : ℝ) = 5 * 5 by norm_num]
    exact Real.sqrt_mul_self (by norm_num)
  refine ⟨?_, ?_, ?_⟩
  · rw [Vertex.collinear3_iff]
    simp [Vertex.ofXYZ]
  · simp [Plan.ofPoints, Axis.ofPoints, Vertex.ofXYZ, Vertex.dot, Vertex.new, h25]
  · simp [Plan.ofPoints, Axis.ofPoints, Vertex.ofXYZ, Vertex.dot, Vertex.new, h25]

/-- Claim C8, amended. For non-collinear (hence distinct) `v1`, `v2`, `v3`, the three
axes of `Plan(v1, v2, v3)` have positive `norm` (no division by zero), each
direction has unit length, and the `z` direction is orthogonal to the `x` and to
the `y` direction.  The `x` and `y` directions are the normalized `v2 - v1` and
`v3 - v1`: they are orthogonal exactly when `(v2 - v1) . (v3 - v1) = 0`. -/
theorem C8_plan_axes (v1 v2 v3 : Vertex ℝ) (hc : ¬ Vertex.Collinear3 v1 v2 v3) :
    (0 < (Plan.ofPoints Real.sqrt v1 v2 v3).xAxis.norm ∧
      0 < (Plan.ofPoints Real.sqrt v1 v2 v3).yAxis.norm ∧
      0 < (Plan.ofPoints Real.sqrt v1 v2 v3).zAxis.norm) ∧
    ((Plan.ofPoints Real.sqrt v1 v2 v3).xAxis.axis.norm Real.sqrt = 1 ∧
      (Plan.ofPoints Real.sqrt v1 v2 v3).yAxis.axis.norm Real.sqrt = 1 ∧
      (Plan.ofPoints Real.sqrt v1 v2 v3).zAxis.axis.norm Real.sqrt = 1) ∧
    (Plan.ofPoints Real.sqrt v1 v2 v3).xAxis.axis.dot
      (Plan.ofPoints Real.sqrt v1 v2 v3).zAxis.axis = 0 ∧
    (Plan.ofPoints Real.sqrt v1 v2 v3).yAxis.axis.dot
      (Plan.ofPoints Real.sqrt v1 v2 v3).zAxis.axis = 0 ∧
    ((Plan.ofPoints Real.sqrt v1 v2 v3).xAxis.axis.dot
        (Plan.ofPoints Real.sqrt v1 v2 v3).yAxis.axis = 0 ↔
      (v2.sub v1).dot (v3.sub v1) = 0) := by
  rw [Vertex.collinear3_iff] at hc
  have h12 : ¬ (v1.x = v2.x ∧ v1.y = v2.y ∧ v1.z = v2.z) := by
    rintro ⟨e1, e2, e3⟩
    apply hc
    rw [e1, e2, e3]
    refine ⟨by ring, by ring, by ring⟩
  have h13 : ¬ (v1.x = v3.x ∧ v1.y = v3.y ∧ v1.z = v3.z) := by
    rintro ⟨e1, e2, e3⟩
    apply hc
    rw [e1, e2, e3]
    refine ⟨by ring, by ring, by ring⟩
  obtain ⟨n1pos, u1, x1, y1, z1⟩ := Axis.ofPoints_spec v1 v2 h12
  obtain ⟨n2pos, u2, x2, y2, z2⟩ := Axis.ofPoints_spec v1 v3 h13
  have hcross : ¬ ((Axis.ofPoints Real.sqrt v1 v2).axis.y * (Axis.ofPoints Real.sqrt v1 v3).axis.z
        - (Axis.ofPoints Real.sqrt v1 v2).axis.z * (Axis.ofPoints Real.sqrt v1 v3).axis.y = 0 ∧
      (Axis.ofPoints Real.sqrt v1 v2).axis.z * (Axis.ofPoints Real.sqrt v1 v3).axis.x
        - (Axis.ofPoints Real.sqrt v1 v2).axis.x * (Axis.ofPoints Real.sqrt v1 v3).axis.z = 0 ∧
      (Axis.ofPoints Real.sqrt v1 v2).axis.x * (Axis.ofPoints Real.sqrt v1 v3).axis.y
        - (Axis.ofPoints Real.sqrt v1 v2).axis.y * (Axis.ofPoints Real.sqrt v1 v3).axis.x = 0) := by
    rintro ⟨c1, c2, c3⟩
    apply hc
    rw [← x1, ← y1, ← z1, ← x2, ← y2, ← z2]
    refine ⟨?_, ?_, ?_⟩
    · linear_combination ((Axis.ofPoints Real.sqrt v1 v2).norm *
        (Axis.ofPoints Real.sqrt v1 v3).norm) * c1
    · linear_combination ((Axis.ofPoints Real.sqrt v1 v2).norm *
        (Axis.ofPoints Real.sqrt v1 v3).norm) * c2
    · linear_combination ((Axis.ofPoints Real.sqrt v1 v2).norm *
        (Axis.ofPoints Real.sqrt v1 v3).norm) * c3
  obtain ⟨n3pos, u3, o1, o2⟩ := Axis.ofPoints_cross _ _ hcross
  refine ⟨⟨n1pos, n2pos, n3pos⟩, ⟨u1, u2, u3⟩, o1, o2, ?_⟩
  have key : (v2.sub v1).dot (v3.sub v1) =
      ((Axis.ofPoints Real.sqrt v1 v2).norm * (Axis.ofPoints Real.sqrt v1 v3).norm) *
        ((Axis.ofPoints Real.sqrt v1 v2).axis.dot (Axis.ofPoints Real.sqrt v1 v3).axis) := by
    simp only [Vertex.sub, Vertex.dot]
    rw [← x1, ← y1, ← z1, ← x2, ← y2, ← z2]
    ring
  show (Axis.ofPoints Real.sqrt v1 v2).axis.dot (Axis.ofPoints Real.sqrt v1 v3).axis = 0 ↔ _
  rw [key]
  constructor
  · intro h0
    rw [h0, mul_zero]
  · intro h0
    rcases mul_eq_zero.mp h0 with h1 | h1
    · exact absurd h1 (mul_pos n1pos n2pos).ne'
    · exact h1

/-- C8 (amended) at `(0, 0, 0)`, `(1, 0, 0)`, `(3, 4, 0)`: the `z` direction has unit
length and is orthogonal to the `x` direction. -/
theorem C8_plan_axes_witness :
    (Plan.ofPoints Real.sqrt (Vertex.ofXYZ 0 0 0) (Vertex.ofXYZ 1 0 0)
        (Vertex.ofXYZ 3 4 (0 : ℝ))).zAxis.axis.norm Real.sqrt = 1 ∧
    (Plan.ofPoints Real.sqrt (Vertex.ofXYZ 0 0 0) (Vertex.ofXYZ 1 0 0)
        (Vertex.ofXYZ 3 4 (0 : ℝ))).xAxis.axis.dot
      (Plan.ofPoints Real.sqrt (Vertex.ofXYZ 0 0 0) (Vertex.ofXYZ 1 0 0)
        (Vertex.ofXYZ 3 4 (0 : ℝ))).zAxis.axis = 0 :=
  have h := C8_plan_axes (Vertex.ofXYZ 0 0 0) (Vertex.ofXYZ 1 0 0) (Vertex.ofXYZ 3 4 (0 : ℝ))
    (by
      rw [Vertex.collinear3_iff]
      simp [Vertex.ofXYZ])
  ⟨h.2.1.2.2, h.2.2.1⟩

end PlanTheorems

section MatrixTheorems

namespace Matrix

variable {F : Type} [Field F]

/-- Two matrices with the same sixteen entries are equal. -/
theorem ext_mat {G : Type} {a b : Matrix G} (h : ∀ i j, a.mat i j = b.mat i j) : a = b := by
  cases a
  cases b
  simp only [Matrix.mk.injEq]
  funext i j
  exact h i j

/-- Reading an entry after the assignment `mat[i][j] = v`. -/
theorem set_mat {G : Type} (m : Matrix G) (i j : Fin 4) (v : G) (a b : Fin 4) :
    (m.set i j v).mat a b = if a = i ∧ b = j then v else m.mat a b := rfl

/-- The entries of `identity()`. -/
theorem identity_mat (i j : Fin 4) :
    (identity : Matrix F).mat i j = if i = j then 1 else 0 := by
  fin_cases i <;> fin_cases j <;> rfl

/-- The entries of `zero()`. -/
theorem zero_mat (i j : Fin 4) : (zero : Matrix F).mat i j = 0 := rfl

/-- The entries of the product `a * m`. -/
theorem mul_mat (a m : Matrix F) (i j : Fin 4) :
    (a.mul m).mat i j =
      a.mat i 0 * m.mat 0 j + a.mat i 1 * m.mat 1 j + a.mat i 2 * m.mat 2 j
        + a.mat i 3 * m.mat 3 j := by
  fin_cases j <;> rfl

/-- The entries of the specification-side translation matrix. -/
theorem translationMatrix_mat (dx dy dz : F) (i j : Fin 4) :
    (translationMatrix dx dy dz).mat i j =
      if j = 3 then (if i = 0 then dx else if i = 1 then dy else if i = 2 then dz else 1)
      else if i = j then 1 else 0 := by
  fin_cases i <;> fin_cases j <;> rfl

/-- The matrix of `identity()` is a left identity of `operator *`. -/
theorem identity_mul (A : Matrix F) : identity.mul A = A := by
  apply ext_mat
  intro i j
  fin_cases i <;> simp [identity_mat, mul_mat]

/-- The matrix of `identity()` is a right identity of `operator *`. -/
theorem mul_identity (A : Matrix F) : A.mul identity = A := by
  apply ext_mat
  intro i j
  fin_cases j <;> simp [identity_mat, mul_mat]

/-- The matrix product `operator *` is associative. -/
theorem mul_mul_assoc (A B C : Matrix F) : (A.mul B).mul C = A.mul (B.mul C) := by
  apply ext_mat
  intro i j
  simp only [mul_mat]
  ring

/-- The determinant of the leading 3×3 block is the number `d` that
`inverse3x3()` computes first. -/
theorem det_block3 (M : Matrix F) :
    Matrix.det (block3 M) =
      M.mat 0 0 * (M.mat 1 1 * M.mat 2 2 - M.mat 2 1 * M.mat 1 2)
      - M.mat 0 1 * (M.mat 1 0 * M.mat 2 2 - M.mat 1 2 * M.mat 2 0)
      + M.mat 0 2 * (M.mat 1 0 * M.mat 2 1 - M.mat 1 1 * M.mat 2 0) := by
  rw [Matrix.det_fin_three]
  simp only [block3, Matrix.of_apply]
  have h0 : (Fin.castSucc (0 : Fin 3)) = (0 : Fin 4) := rfl
  have h1 : (Fin.castSucc (1 : Fin 3)) = (1 : Fin 4) := rfl
  have h2 : (Fin.castSucc (2 : Fin 3)) = (2 : Fin 4) := rfl
  rw [h0, h1, h2]
  ring

end Matrix

open Matrix

/-- Claim C3. The matrix `I` of `identity()` is a two-sided identity: `I * v == v`
under the `Vertex` equality for every vertex `v`, and `I * A` and `A * I` have
the entries of `A` for every matrix `A`. -/
theorem C3_identity_two_sided (v : Vertex ℝ) (A : Matrix ℝ) :
    ((identity : Matrix ℝ).mulVertex v).eq v = true ∧
    (∀ i j, ((identity : Matrix ℝ).mul A).mat i j = A.mat i j) ∧
    (∀ i j, (A.mul identity).mat i j = A.mat i j) := by
  refine ⟨?_, ?_, ?_⟩
  · simp [Vertex.eq, mulVertex, Vertex.ofXYZ, identity_mat]
  · intro i j
    rw [identity_mul]
  · intro i j
    rw [mul_identity]

/-- Claim C4. `M.rotate(ax, ay, az)` is `Rx(ax) * (Rz(az) * (Ry(ay) * M))`, where
`Rx(a)`, `Ry(a)`, `Rz(a)` are what `rotateX(a)`, `rotateY(a)`, `rotateZ(a)` make
of the identity. -/
theorem C4_rotate_order (M : Matrix ℝ) (ax ay az : ℝ) :
    M.rotate Real.cos Real.sin ax ay az =
      (rotateX Real.cos Real.sin ax identity).mul
        ((rotateZ Real.cos Real.sin az identity).mul
          ((rotateY Real.cos Real.sin ay identity).mul M)) := by
  simp only [rotate, rotateX, rotateY, rotateZ, mul_identity]

/-- Claim C5 fails as stated. On the zero matrix, `translate(1, 0, 0)` writes 1 into
`mat[0][3]`, while `T * M` is the zero matrix. -/
theorem C5_translate_counterexample :
    (zero : Matrix ℝ).translate 1 0 0 ≠ (translationMatrix 1 0 0).mul zero := by
  intro h
  have h03 := congrArg (fun m => m.mat 0 3) h
  simp [Matrix.translate, set_mat, zero_mat, mul_mat] at h03

/-- Claim C5, amended. `M.translate(dx, dy, dz)` is `T * M` for all offsets exactly
when the fourth row of `M` is `(0, 0, 0, 1)`; `T` is the identity matrix with
`(dx, dy, dz)` written into rows 0..2 of its last column. -/
theorem C5_translate_affine (M : Matrix ℝ) :
    M.IsAffine ↔
      ∀ dx dy dz : ℝ, M.translate dx dy dz = (translationMatrix dx dy dz).mul M := by
  constructor
  · rintro ⟨h0, h1, h2, h3⟩ dx dy dz
    apply ext_mat
    intro i j
    fin_cases i <;> fin_cases j <;>
      simp [Matrix.translate, set_mat, mul_mat, translationMatrix_mat, h0, h1, h2, h3]
  · intro h
    have e := h 1 0 0
    have e0 := congrArg (fun m => m.mat 0 0) e
    have e1 := congrArg (fun m => m.mat 0 1) e
    have e2 := congrArg (fun m => m.mat 0 2) e
    have e3 := congrArg (fun m => m.mat 0 3) e
    simp [Matrix.translate, set_mat, mul_mat, translationMatrix_mat] at e0 e1 e2 e3
    exact ⟨e0, e1, e2, e3.symm⟩

/-- C5 (amended) at the identity matrix with offsets `(1, 2, 3)`. -/
theorem C5_translate_affine_witness :
    (identity : Matrix ℝ).translate 1 2 3 = (translationMatrix 1 2 3).mul identity :=
  (C5_translate_affine identity).mp
    ⟨by simp [identity_mat], by simp [identity_mat], by simp [identity_mat],
      by simp [identity_mat]⟩ 1 2 3

/-- Claim C6 fails as stated. With `M` the identity translated by `(1, 0, 0)` and
`v = (0, 0, 0)` with `w = 0`, the `x` of `M * v` is 1, while the dot product of
row 0 of `M` with `(v.x, v.y, v.z, v.w)` is 0. -/
theorem C6_mulVertex_counterexample :
    ((Matrix.translate 1 0 0 (identity : Matrix ℝ)).mulVertex (Vertex.mk 0 0 0 0)).x = 1 ∧
    (Matrix.translate 1 0 0 (identity : Matrix ℝ)).mat 0 0 * (Vertex.mk 0 0 0 (0 : ℝ)).x
      + (Matrix.translate 1 0 0 (identity : Matrix ℝ)).mat 0 1 * (Vertex.mk 0 0 0 (0 : ℝ)).y
      + (Matrix.translate 1 0 0 (identity : Matrix ℝ)).mat 0 2 * (Vertex.mk 0 0 0 (0 : ℝ)).z
      + (Matrix.translate 1 0 0 (identity : Matrix ℝ)).mat 0 3 * (Vertex.mk 0 0 0 (0 : ℝ)).w
      = 0 := by
  constructor
  · simp [Matrix.translate, set_mat, identity_mat, mulVertex, Vertex.ofXYZ]
  · simp

/-- Claim C6, amended. The `x`, `y`, `z` of `M * v` are the dot products of rows 0,
1, 2 of `M` with `(v.x, v.y, v.z, 1)`: the `w` of `v` is not read.  The `w` of
`M * v` is 1. -/
theorem C6_mulVertex_rows (M : Matrix ℝ) (v : Vertex ℝ) :
    (M.mulVertex v).x = M.mat 0 0 * v.x + M.mat 0 1 * v.y + M.mat 0 2 * v.z + M.mat 0 3 * 1 ∧
    (M.mulVertex v).y = M.mat 1 0 * v.x + M.mat 1 1 * v.y + M.mat 1 2 * v.z + M.mat 1 3 * 1 ∧
    (M.mulVertex v).z = M.mat 2 0 * v.x + M.mat 2 1 * v.y + M.mat 2 2 * v.z + M.mat 2 3 * 1 ∧
    (M.mulVertex v).w = 1 := by
  refine ⟨?_, ?_, ?_, rfl⟩ <;> simp only [mulVertex, Vertex.ofXYZ] <;> ring

/-- Claim C10. `rotateX(a)` followed by `rotateX(-a)` leaves every matrix `M` as it
was, in real arithmetic; in particular the identity stays the identity. -/
theorem C10_rotateX_neg (a : ℝ) (M : Matrix ℝ) :
    rotateX Real.cos Real.sin (-a) (rotateX Real.cos Real.sin a M) = M ∧
    rotateX Real.cos Real.sin (-a) (rotateX Real.cos Real.sin a identity) =
      (identity : Matrix ℝ) := by
  have key : ∀ N : Matrix ℝ,
      rotateX Real.cos Real.sin (-a) (rotateX Real.cos Real.sin a N) = N := by
    intro N
    apply ext_mat
    intro i j
    have h := Real.sin_sq_add_cos_sq a
    fin_cases i <;>
      simp [rotateX, mul_mat, identity_mat, set_mat, Real.cos_neg, Real.sin_neg]
    · linear_combination (N.mat 1 j) * h
    · linear_combination (N.mat 2 j) * h
  exact ⟨key M, key identity⟩

/-- Claim C9, amended. Reading the `float` arithmetic as exact real arithmetic: when
the determinant of the leading 3×3 block of `M` is zero, `M.inverse3x3()` is the
zero matrix (all sixteen entries 0); when it is not zero, entry `[3][3]` of the
result is 1; so the result is the zero matrix exactly when the block is
singular. -/
theorem C9_inverse3x3_zero (M : Matrix ℝ) :
    (Matrix.det (block3 M) = 0 →
      M.inverse3x3 = zero ∧ ∀ i j, M.inverse3x3.mat i j = 0) ∧
    (Matrix.det (block3 M) ≠ 0 → M.inverse3x3.mat 3 3 = 1) ∧
    (M.inverse3x3 = zero ↔ Matrix.det (block3 M) = 0) := by
  have hz : Matrix.det (block3 M) = 0 → M.inverse3x3 = zero := by
    intro h
    rw [det_block3] at h
    simp only [inverse3x3, if_pos h]
  have hn : Matrix.det (block3 M) ≠ 0 → M.inverse3x3.mat 3 3 = 1 := by
    intro h
    rw [det_block3] at h
    simp [inverse3x3, if_neg h, set_mat, identity_mat]
  refine ⟨?_, hn, ?_, hz⟩
  · intro h
    refine ⟨hz h, ?_⟩
    intro i j
    rw [hz h, zero_mat]
  · intro h
    by_contra hd
    have h33 := hn hd
    rw [h, zero_mat] at h33
    exact zero_ne_one h33

/-- C9 at the zero matrix (singular) and at the identity matrix (regular). -/
theorem C9_inverse3x3_zero_witness :
    (zero : Matrix ℝ).inverse3x3 = zero ∧ (identity : Matrix ℝ).inverse3x3.mat 3 3 = 1 :=
  ⟨((C9_inverse3x3_zero zero).1 (by simp [det_block3, zero_mat])).1,
   (C9_inverse3x3_zero identity).2.1 (by simp [det_block3, identity_mat])⟩

/-- The entries of identity-then-`scale(sx, sy, sz)`. -/
theorem scale_identity_mat {F : Type} [Field F] (sx sy sz : F) (i j : Fin 4) :
    (scale sx sy sz identity).mat i j =
      if i = j then (if i = 0 then sx else if i = 1 then sy else if i = 2 then sz else 1)
      else 0 := by
  fin_cases i <;> fin_cases j <;> simp [scale, mul_mat, set_mat, identity_mat]

/-- With a non-zero `d`, the leading block of `inverse3x3()` times the leading
block of the receiver is the 3×3 identity, in both orders. -/
theorem inverse3x3_block (M : Matrix ℝ) (h : Matrix.det (block3 M) ≠ 0) :
    block3 M.inverse3x3 * block3 M = 1 ∧ block3 M * block3 M.inverse3x3 = 1 := by
  rw [det_block3] at h
  have hdd := mul_one_div_cancel h
  have c0 : (Fin.castSucc (0 : Fin 3)) = (0 : Fin 4) := rfl
  have c1 : (Fin.castSucc (1 : Fin 3)) = (1 : Fin 4) := rfl
  have c2 : (Fin.castSucc (2 : Fin 3)) = (2 : Fin 4) := rfl
  constructor
  · ext i j
    fin_cases i <;> fin_cases j <;>
      simp only [Matrix.mul_apply, Fin.sum_univ_three, block3, Matrix.of_apply, inverse3x3,
        if_neg h, set_mat, identity_mat, Matrix.one_apply, c0, c1, c2, Fin.zero_eta,
        Fin.mk_one, Fin.reduceFinMk, Fin.isValue, Fin.reduceEq, and_true, and_false,
        and_self, if_true, if_false, reduceIte] <;>
      generalize 1 / _ = e at hdd ⊢ <;>
      first | ring1 | linear_combination hdd
  · ext i j
    fin_cases i <;> fin_cases j <;>
      simp only [Matrix.mul_apply, Fin.sum_univ_three, block3, Matrix.of_apply, inverse3x3,
        if_neg h, set_mat, identity_mat, Matrix.one_apply, c0, c1, c2, Fin.zero_eta,
        Fin.mk_one, Fin.reduceFinMk, Fin.isValue, Fin.reduceEq, and_true, and_false,
        and_self, if_true, if_false, reduceIte] <;>
      generalize 1 / _ = e at hdd ⊢ <;>
      first | ring1 | linear_combination hdd

/-- The `inverse3x3()` of a scale matrix with non-zero factors is the scale
matrix of the reciprocal factors. -/
theorem inverse3x3_scale (sx sy sz : ℝ) (hx : sx ≠ 0) (hy : sy ≠ 0) (hz : sz ≠ 0) :
    (scale sx sy sz identity).inverse3x3 = scale (1 / sx) (1 / sy) (1 / sz) identity := by
  apply ext_mat
  intro i j
  have hd : sx * (sy * sz) ≠ 0 := mul_ne_zero hx (mul_ne_zero hy hz)
  rw [scale_identity_mat]
  simp only [inverse3x3, scale_identity_mat]
  simp only [Fin.isValue, Fin.reduceEq, if_true, if_false, reduceIte, mul_zero, zero_mul,
    sub_zero, add_zero, neg_zero, sub_self]
  rw [if_neg hd]
  fin_cases i <;> fin_cases j <;>
    simp only [set_mat, identity_mat, Fin.zero_eta, Fin.mk_one, Fin.reduceFinMk, Fin.isValue,
      Fin.reduceEq, and_true, and_false, and_self, if_true, if_false, reduceIte] <;>
    first | rfl | (field_simp; ring)

/-- Claim C2. When the leading 3×3 block of `M` has a non-zero determinant, the
leading 3×3 block of `M.inverse3x3()` is its two-sided inverse; and for non-zero
`sx`, `sy`, `sz`, the `inverse3x3()` of identity-then-`scale(sx, sy, sz)` is
identity-then-`scale(1/sx, 1/sy, 1/sz)`. -/
theorem C2_inverse3x3 (M : Matrix ℝ) (sx sy sz : ℝ) :
    (Matrix.det (block3 M) ≠ 0 →
      block3 M.inverse3x3 * block3 M = 1 ∧ block3 M * block3 M.inverse3x3 = 1) ∧
    (sx ≠ 0 → sy ≠ 0 → sz ≠ 0 →
      (scale sx sy sz identity).inverse3x3 = scale (1 / sx) (1 / sy) (1 / sz) identity) :=
  ⟨inverse3x3_block M, inverse3x3_scale sx sy sz⟩

/-- C2 at the matrix identity-then-`scale(2, 4, 5)`. -/
theorem C2_inverse3x3_witness :
    block3 (scale 2 4 5 (identity : Matrix ℝ)).inverse3x3 *
        block3 (scale 2 4 5 (identity : Matrix ℝ)) = 1 ∧
    (scale 2 4 5 (identity : Matrix ℝ)).inverse3x3 =
      scale (1 / 2) (1 / 4) (1 / 5) identity :=
  ⟨((C2_inverse3x3 (scale 2 4 5 identity) 2 4 5).1
      (by simp [det_block3, scale_identity_mat])).1,
   (C2_inverse3x3 identity 2 4 5).2 (by norm_num) (by norm_num) (by norm_num)⟩

end MatrixTheorems

section VertexArithmetic

/-- Claim C11. For all vertices `u`, `v`, whatever their `w`: `u + v` and `u - v`
have the component-wise sum and difference as `x`, `y`, `z`, and their `w` is
the 1 of the default constructor, not the `w` of an operand. -/
theorem C11_add_sub_w (u v : Vertex ℝ) :
    ((u.add v).x = u.x + v.x ∧ (u.add v).y = u.y + v.y ∧ (u.add v).z = u.z + v.z) ∧
    ((u.add v).w = (Vertex.new : Vertex ℝ).w ∧ (u.add v).w = 1) ∧
    ((u.sub v).x = u.x - v.x ∧ (u.sub v).y = u.y - v.y ∧ (u.sub v).z = u.z - v.z) ∧
    ((u.sub v).w = (Vertex.new : Vertex ℝ).w ∧ (u.sub v).w = 1) :=
  ⟨⟨rfl, rfl, rfl⟩, ⟨rfl, rfl⟩, ⟨rfl, rfl, rfl⟩, ⟨rfl, rfl⟩⟩

/-- Claim C12 fails as stated. `spherical(0, 0, 10)` is `(10, 0, 0)`; it is not
equal to `Geo::front * 10`, which is `(0, 0, -10)`. -/
theorem C12_spherical_counterexample :
    (Vertex.spherical Real.cos Real.sin 0 0 10).x = 10 ∧
    (Vertex.spherical Real.cos Real.sin 0 0 10).y = 0 ∧
    (Vertex.spherical Real.cos Real.sin 0 0 10).z = 0 ∧
    ((Geo.front : Vertex ℝ).scaleBy 10).x = 0 ∧
    ((Geo.front : Vertex ℝ).scaleBy 10).z = -10 ∧
    (Vertex.spherical Real.cos Real.sin 0 0 10).eq ((Geo.front : Vertex ℝ).scaleBy 10)
      = false := by
  simp [Vertex.spherical, Vertex.scaleBy, Vertex.eq, Geo.front, Vertex.ofXYZ, Vertex.new]

/-- Claim C12, amended. For every `d`, `spherical(0, 0, d)` is `Geo::right * d`, the
vertex `(d, 0, 0)` with `w = 1`. -/
theorem C12_spherical_right (d : ℝ) :
    Vertex.spherical Real.cos Real.sin 0 0 d = (Geo.right : Vertex ℝ).scaleBy d ∧
    Vertex.spherical Real.cos Real.sin 0 0 d = { x := d, y := 0, z := 0, w := 1 } ∧
    (Vertex.spherical Real.cos Real.sin 0 0 d).eq ((Geo.right : Vertex ℝ).scaleBy d)
      = true := by
  simp [Vertex.spherical, Vertex.scaleBy, Vertex.eq, Geo.right, Vertex.ofXYZ, Vertex.new]

/-- Claim C18. For all `azi`, `inc`, `dist`, in real arithmetic, the `norm()` of
`spherical(azi, inc, dist)` is `|dist|`, and its `w` is 1. -/
theorem C18_spherical_norm (azi inc dist : ℝ) :
    (Vertex.spherical Real.cos Real.sin azi inc dist).norm Real.sqrt = |dist| ∧
    (Vertex.spherical Real.cos Real.sin azi inc dist).w = 1 := by
  refine ⟨?_, rfl⟩
  have ha := Real.sin_sq_add_cos_sq azi
  have hi := Real.sin_sq_add_cos_sq inc
  have hsum :
      Real.cos azi * Real.cos inc * dist * (Real.cos azi * Real.cos inc * dist)
        + Real.sin inc * dist * (Real.sin inc * dist)
        + -Real.sin azi * Real.cos inc * dist * (-Real.sin azi * Real.cos inc * dist)
      = dist * dist := by
    linear_combination (dist * dist * Real.cos inc ^ 2) * ha + (dist * dist) * hi
  simp only [Vertex.spherical, Vertex.norm, Vertex.dot, Vertex.new]
  rw [hsum]
  exact Real.sqrt_mul_self_eq_abs dist

end VertexArithmetic

section AxisDefault

/-- Claim C13 fails as stated. The direction of the default `Axis` is `(0, 0, 1)`;
`Geo::front` is `(0, 0, -1)`, and the two are not equal. -/
theorem C13_axis_default_counterexample :
    (Axis.new : Axis ℝ).axis.z = 1 ∧ (Geo.front : Vertex ℝ).z = -1 ∧
    (Axis.new : Axis ℝ).axis.eq Geo.front = false := by
  simp [Axis.new, Vertex.new, Geo.front, Vertex.ofXYZ, Vertex.eq]
  norm_num

/-- Claim C13, amended. The default `Axis` has origin `(0, 0, 0)`, `norm` 1 and a
direction equal to `Geo::back`, the vertex `(0, 0, 1)`. -/
theorem C13_axis_default_back :
    ((Axis.new : Axis ℝ).origin.x = 0 ∧ (Axis.new : Axis ℝ).origin.y = 0 ∧
      (Axis.new : Axis ℝ).origin.z = 0) ∧
    (Axis.new : Axis ℝ).norm = 1 ∧
    (Axis.new : Axis ℝ).axis = Geo.back ∧
    (Axis.new : Axis ℝ).axis.eq Geo.back = true := by
  simp [Axis.new, Vertex.new, Geo.back, Vertex.ofXYZ, Vertex.eq]

end AxisDefault

section PlanThirdAxis

/-- The x-axis of `Plan(v1, v2, v3)` is `Axis(v1, v2)`. -/
theorem Plan.xAxis_ofPoints (v1 v2 v3 : Vertex ℝ) :
    (Plan.ofPoints Real.sqrt v1 v2 v3).xAxis = Axis.ofPoints Real.sqrt v1 v2 := rfl

/-- The y-axis of `Plan(v1, v2, v3)` is `Axis(v1, v3)`. -/
theorem Plan.yAxis_ofPoints (v1 v2 v3 : Vertex ℝ) :
    (Plan.ofPoints Real.sqrt v1 v2 v3).yAxis = Axis.ofPoints Real.sqrt v1 v3 := rfl

/-- Claim C17. For non-collinear (hence distinct) `v1`, `v2`, `v3`, the z-axis of
`Plan(v1, v2, v3)` is the cross product of the `x` and `y` directions,
re-anchored at `v1`: `zAxis.axis` times `zAxis.norm` is `xAxis.axis` cross
`yAxis.axis` component by component, with a positive `zAxis.norm`; `zAxis.axis`
has unit length and is orthogonal to `xAxis.axis` and to `yAxis.axis`; and
`zAxis.origin` has the `x`, `y`, `z` of `v1`. -/
theorem C17_plan_zAxis (v1 v2 v3 : Vertex ℝ) (hc : ¬ Vertex.Collinear3 v1 v2 v3) :
    ((Plan.ofPoints Real.sqrt v1 v2 v3).zAxis.axis.x * (Plan.ofPoints Real.sqrt v1 v2 v3).zAxis.norm
        = ((Plan.ofPoints Real.sqrt v1 v2 v3).xAxis.axis.cross
            (Plan.ofPoints Real.sqrt v1 v2 v3).yAxis.axis).x ∧
      (Plan.ofPoints Real.sqrt v1 v2 v3).zAxis.axis.y * (Plan.ofPoints Real.sqrt v1 v2 v3).zAxis.norm
        = ((Plan.ofPoints Real.sqrt v1 v2 v3).xAxis.axis.cross
            (Plan.ofPoints Real.sqrt v1 v2 v3).yAxis.axis).y ∧
      (Plan.ofPoints Real.sqrt v1 v2 v3).zAxis.axis.z * (Plan.ofPoints Real.sqrt v1 v2 v3).zAxis.norm
        = ((Plan.ofPoints Real.sqrt v1 v2 v3).xAxis.axis.cross
            (Plan.ofPoints Real.sqrt v1 v2 v3).yAxis.axis).z) ∧
    0 < (Plan.ofPoints Real.sqrt v1 v2 v3).zAxis.norm ∧
    (Plan.ofPoints Real.sqrt v1 v2 v3).zAxis.axis.norm Real.sqrt = 1 ∧
    (Plan.ofPoints Real.sqrt v1 v2 v3).zAxis.axis.dot
      (Plan.ofPoints Real.sqrt v1 v2 v3).xAxis.axis = 0 ∧
    (Plan.ofPoints Real.sqrt v1 v2 v3).zAxis.axis.dot
      (Plan.ofPoints Real.sqrt v1 v2 v3).yAxis.axis = 0 ∧
    ((Plan.ofPoints Real.sqrt v1 v2 v3).zAxis.origin.x = v1.x ∧
      (Plan.ofPoints Real.sqrt v1 v2 v3).zAxis.origin.y = v1.y ∧
      (Plan.ofPoints Real.sqrt v1 v2 v3).zAxis.origin.z = v1.z) := by
  rw [Vertex.collinear3_iff] at hc
  have h12 : ¬ (v1.x = v2.x ∧ v1.y = v2.y ∧ v1.z = v2.z) := by
    rintro ⟨e1, e2, e3⟩
    apply hc
    rw [e1, e2, e3]
    refine ⟨by ring, by ring, by ring⟩
  have h13 : ¬ (v1.x = v3.x ∧ v1.y = v3.y ∧ v1.z = v3.z) := by
    rintro ⟨e1, e2, e3⟩
    apply hc
    rw [e1, e2, e3]
    refine ⟨by ring, by ring, by ring⟩
  obtain ⟨-, -, x1, y1, z1⟩ := Axis.ofPoints_spec v1 v2 h12
  obtain ⟨-, -, x2, y2, z2⟩ := Axis.ofPoints_spec v1 v3 h13
  have hcross : ¬ ((Axis.ofPoints Real.sqrt v1 v2).axis.y * (Axis.ofPoints Real.sqrt v1 v3).axis.z
        - (Axis.ofPoints Real.sqrt v1 v2).axis.z * (Axis.ofPoints Real.sqrt v1 v3).axis.y = 0 ∧
      (Axis.ofPoints Real.sqrt v1 v2).axis.z * (Axis.ofPoints Real.sqrt v1 v3).axis.x
        - (Axis.ofPoints Real.sqrt v1 v2).axis.x * (Axis.ofPoints Real.sqrt v1 v3).axis.z = 0 ∧
      (Axis.ofPoints Real.sqrt v1 v2).axis.x * (Axis.ofPoints Real.sqrt v1 v3).axis.y
        - (Axis.ofPoints Real.sqrt v1 v2).axis.y * (Axis.ofPoints Real.sqrt v1 v3).axis.x = 0) := by
    rintro ⟨c1, c2, c3⟩
    apply hc
    rw [← x1, ← y1, ← z1, ← x2, ← y2, ← z2]
    refine ⟨?_, ?_, ?_⟩
    · linear_combination ((Axis.ofPoints Real.sqrt v1 v2).norm *
        (Axis.ofPoints Real.sqrt v1 v3).norm) * c1
    · linear_combination ((Axis.ofPoints Real.sqrt v1 v2).norm *
        (Axis.ofPoints Real.sqrt v1 v3).norm) * c2
    · linear_combination ((Axis.ofPoints Real.sqrt v1 v2).norm *
        (Axis.ofPoints Real.sqrt v1 v3).norm) * c3
  have hdiff : ¬ ((Axis.ofPoints Real.sqrt v1 v2).axis.z * (Axis.ofPoints Real.sqrt v1 v3).axis.y
        = (Axis.ofPoints Real.sqrt v1 v2).axis.y * (Axis.ofPoints Real.sqrt v1 v3).axis.z ∧
      (Axis.ofPoints Real.sqrt v1 v2).axis.x * (Axis.ofPoints Real.sqrt v1 v3).axis.z
        = (Axis.ofPoints Real.sqrt v1 v2).axis.z * (Axis.ofPoints Real.sqrt v1 v3).axis.x ∧
      (Axis.ofPoints Real.sqrt v1 v2).axis.y * (Axis.ofPoints Real.sqrt v1 v3).axis.x
        = (Axis.ofPoints Real.sqrt v1 v2).axis.x * (Axis.ofPoints Real.sqrt v1 v3).axis.y) := by
    rintro ⟨e1, e2, e3⟩
    exact hcross ⟨by linarith, by linarith, by linarith⟩
  obtain ⟨n3pos, u3, o1, o2⟩ := Axis.ofPoints_cross _ _ hcross
  obtain ⟨-, -, zx, zy, zz⟩ := Axis.ofPoints_spec
    { x := (Axis.ofPoints Real.sqrt v1 v2).axis.z * (Axis.ofPoints Real.sqrt v1 v3).axis.y,
      y := (Axis.ofPoints Real.sqrt v1 v2).axis.x * (Axis.ofPoints Real.sqrt v1 v3).axis.z,
      z := (Axis.ofPoints Real.sqrt v1 v2).axis.y * (Axis.ofPoints Real.sqrt v1 v3).axis.x,
      w := 1 }
    { x := (Axis.ofPoints Real.sqrt v1 v2).axis.y * (Axis.ofPoints Real.sqrt v1 v3).axis.z,
      y := (Axis.ofPoints Real.sqrt v1 v2).axis.z * (Axis.ofPoints Real.sqrt v1 v3).axis.x,
      z := (Axis.ofPoints Real.sqrt v1 v2).axis.x * (Axis.ofPoints Real.sqrt v1 v3).axis.y,
      w := 1 } hdiff
  refine ⟨⟨?_, ?_, ?_⟩, n3pos, u3, ?_, ?_, ⟨rfl, rfl, rfl⟩⟩
  · refine zx.trans ?_
    simp only [Vertex.cross, Vertex.new, Plan.xAxis_ofPoints, Plan.yAxis_ofPoints]
    ring
  · refine zy.trans ?_
    simp only [Vertex.cross, Vertex.new, Plan.xAxis_ofPoints, Plan.yAxis_ofPoints]
    ring
  · refine zz.trans ?_
    simp only [Vertex.cross, Vertex.new, Plan.xAxis_ofPoints, Plan.yAxis_ofPoints]
    ring
  · have e : ∀ a b : Vertex ℝ, a.dot b = b.dot a := by
      intro a b
      simp only [Vertex.dot]
      ring
    exact (e _ _).trans o1
  · have e : ∀ a b : Vertex ℝ, a.dot b = b.dot a := by
      intro a b
      simp only [Vertex.dot]
      ring
    exact (e _ _).trans o2

/-- C17 at `(0, 0, 0)`, `(1, 0, 0)`, `(0, 2, 0)`: the z direction has unit length. -/
theorem C17_plan_zAxis_witness :
    (Plan.ofPoints Real.sqrt (Vertex.ofXYZ 0 0 0) (Vertex.ofXYZ 1 0 0)
        (Vertex.ofXYZ 0 2 (0 : ℝ))).zAxis.axis.norm Real.sqrt = 1 :=
  (C17_plan_zAxis (Vertex.ofXYZ 0 0 0) (Vertex.ofXYZ 1 0 0) (Vertex.ofXYZ 0 2 (0 : ℝ))
    (by
      rw [Vertex.collinear3_iff]
      simp [Vertex.ofXYZ])).2.2.1

end PlanThirdAxis

section MatrixFrames

open Matrix

/-- Claim C19. When the fourth row of `B` is `(0, 0, 0, 1)`, transforming `v` by the
product `A * B` agrees with transforming it by `B` and then by `A`:
`(A * B) * v == A * (B * v)` under the `Vertex` equality (and the `w` of both is
1, so the two vertices are equal). -/
theorem C19_mul_mulVertex (A B : Matrix ℝ) (hB : B.IsAffine) (v : Vertex ℝ) :
    ((A.mul B).mulVertex v).eq (A.mulVertex (B.mulVertex v)) = true ∧
    (A.mul B).mulVertex v = A.mulVertex (B.mulVertex v) := by
  obtain ⟨h0, h1, h2, h3⟩ := hB
  have key : (A.mul B).mulVertex v = A.mulVertex (B.mulVertex v) := by
    simp only [mulVertex, Vertex.ofXYZ, mul_mat, h0, h1, h2, h3, Vertex.mk.injEq, and_true]
    refine ⟨?_, ?_, ?_⟩ <;> ring
  refine ⟨?_, key⟩
  rw [key]
  simp [Vertex.eq]

/-- C19 with `B` the identity translated by `(1, 2, 3)` and `A` a scale matrix. -/
theorem C19_mul_mulVertex_witness :
    (((scale 2 3 4 (identity : Matrix ℝ)).mul (Matrix.translate 1 2 3 identity)).mulVertex
        (Vertex.ofXYZ 1 1 1)).eq
      ((scale 2 3 4 (identity : Matrix ℝ)).mulVertex
        ((Matrix.translate 1 2 3 identity).mulVertex (Vertex.ofXYZ 1 1 1))) = true :=
  (C19_mul_mulVertex (scale 2 3 4 identity) (Matrix.translate 1 2 3 identity)
    ⟨by simp [Matrix.translate, set_mat, identity_mat],
     by simp [Matrix.translate, set_mat, identity_mat],
     by simp [Matrix.translate, set_mat, identity_mat],
     by simp [Matrix.translate, set_mat, identity_mat]⟩ (Vertex.ofXYZ 1 1 1)).1

/-- With angle 0, `rotateY` leaves the matrix as it is. -/
theorem rotateY_zero (M : Matrix ℝ) : rotateY Real.cos Real.sin 0 M = M := by
  apply ext_mat
  intro i j
  fin_cases i <;> simp [rotateY, mul_mat, set_mat, identity_mat]

/-- Claim C16, the code at `M` the identity, `back = (0, 0, 1)`, `up = (0, 1, 0)` (both
with `w = 0`, of unit length, perpendicular) and `a = 0`: `rotateBackUp` does not
leave `M` unchanged.  The `right` that `cross` returns has `w = 1`, which
`m1.mat[0][3] = right.w` writes into the last column, so the result is the
identity with `mat[0][3] = 1`. -/
theorem C16_rotateBackUp_at_identity :
    ((Vertex.mk 0 0 1 (0 : ℝ)).norm Real.sqrt = 1 ∧ (Vertex.mk 0 1 0 (0 : ℝ)).norm Real.sqrt = 1 ∧
      (Vertex.mk 0 0 1 (0 : ℝ)).dot (Vertex.mk 0 1 0 0) = 0) ∧
    (rotateBackUp Real.sqrt Real.cos Real.sin (Vertex.mk 0 0 1 0) (Vertex.mk 0 1 0 0) 0
      (identity : Matrix ℝ)).mat 0 3 = 1 ∧
    (identity : Matrix ℝ).mat 0 3 = 0 ∧
    rotateBackUp Real.sqrt Real.cos Real.sin (Vertex.mk 0 0 1 0) (Vertex.mk 0 1 0 0) 0
      (identity : Matrix ℝ) ≠ identity := by
  have hb : (Vertex.mk 0 0 1 (0 : ℝ)).norm Real.sqrt = 1 := by
    simp [Vertex.norm, Vertex.dot]
  have hu : (Vertex.mk 0 1 0 (0 : ℝ)).norm Real.sqrt = 1 := by
    simp [Vertex.norm, Vertex.dot]
  have nb : (Vertex.mk 0 0 1 (0 : ℝ)).normalize Real.sqrt = { x := 0, y := 0, z := 1, w := 0 } := by
    simp [Vertex.normalize, hb]
  have nu : (Vertex.mk 0 1 0 (0 : ℝ)).normalize Real.sqrt = { x := 0, y := 1, z := 0, w := 0 } := by
    simp [Vertex.normalize, hu]
  have h03 : (rotateBackUp Real.sqrt Real.cos Real.sin (Vertex.mk 0 0 1 0) (Vertex.mk 0 1 0 0) 0
      (identity : Matrix ℝ)).mat 0 3 = 1 := by
    simp [rotateBackUp, rotateY_zero, mul_identity, nb, nu, Vertex.cross, Vertex.new, mul_mat,
      set_mat, identity_mat]
  have hI : (identity : Matrix ℝ).mat 0 3 = 0 := by
    simp [identity_mat]
  refine ⟨⟨hb, hu, by simp [Vertex.dot]⟩, h03, hI, ?_⟩
  intro h
  rw [h, hI] at h03
  exact zero_ne_one h03

/-- The product of two matrices with fourth row `(0, 0, 0, 1)` has fourth row
`(0, 0, 0, 1)`. -/
theorem isAffine_mul {A B : Matrix ℝ} (hA : A.IsAffine) (hB : B.IsAffine) :
    (A.mul B).IsAffine := by
  obtain ⟨a0, a1, a2, a3⟩ := hA
  obtain ⟨b0, b1, b2, b3⟩ := hB
  simp [IsAffine, mul_mat, a0, a1, a2, a3, b0, b1, b2, b3]

/-- The matrix of `identity()` has fourth row `(0, 0, 0, 1)`. -/
theorem isAffine_identity : (identity : Matrix ℝ).IsAffine := by
  simp [IsAffine, identity_mat]

/-- An assignment to an entry of rows 0..2 leaves the fourth row as it is. -/
theorem isAffine_set {A : Matrix ℝ} (hA : A.IsAffine) (i j : Fin 4) (hi : i ≠ 3) (v : ℝ) :
    (A.set i j v).IsAffine := by
  obtain ⟨a0, a1, a2, a3⟩ := hA
  have h : ∀ b : Fin 4, ¬ ((3 : Fin 4) = i ∧ b = j) := fun b hb => hi hb.1.symm
  simp [IsAffine, set_mat, h, a0, a1, a2, a3]

/-- Every transform-building operation other than `rotateBackRight` keeps the
fourth row `(0, 0, 0, 1)`. -/
theorem isAffine_preserved (M : Matrix ℝ) (hM : M.IsAffine) (back up right : Vertex ℝ)
    (a ax ay az dx dy dz sx sy sz : ℝ) :
    (Matrix.translate dx dy dz M).IsAffine ∧
    (scale sx sy sz M).IsAffine ∧
    (rotateX Real.cos Real.sin a M).IsAffine ∧
    (rotateY Real.cos Real.sin a M).IsAffine ∧
    (rotateZ Real.cos Real.sin a M).IsAffine ∧
    (rotate Real.cos Real.sin ax ay az M).IsAffine ∧
    (alignBackUp Real.sqrt back up M).IsAffine ∧
    (alignBackRight Real.sqrt back right M).IsAffine ∧
    (rotateBackUp Real.sqrt Real.cos Real.sin back up a M).IsAffine := by
  have hX : ∀ (t : ℝ) (N : Matrix ℝ), N.IsAffine → (rotateX Real.cos Real.sin t N).IsAffine := by
    intro t N hN
    exact isAffine_mul (isAffine_set (isAffine_set (isAffine_set (isAffine_set
      isAffine_identity 1 1 (by decide) _) 1 2 (by decide) _) 2 1 (by decide) _)
      2 2 (by decide) _) hN
  have hY : ∀ (t : ℝ) (N : Matrix ℝ), N.IsAffine → (rotateY Real.cos Real.sin t N).IsAffine := by
    intro t N hN
    exact isAffine_mul (isAffine_set (isAffine_set (isAffine_set (isAffine_set
      isAffine_identity 0 0 (by decide) _) 0 2 (by decide) _) 2 0 (by decide) _)
      2 2 (by decide) _) hN
  have hZ : ∀ (t : ℝ) (N : Matrix ℝ), N.IsAffine → (rotateZ Real.cos Real.sin t N).IsAffine := by
    intro t N hN
    exact isAffine_mul (isAffine_set (isAffine_set (isAffine_set (isAffine_set
      isAffine_identity 0 0 (by decide) _) 0 1 (by decide) _) 1 0 (by decide) _)
      1 1 (by decide) _) hN
  have hAlign : ∀ r u b : Vertex ℝ,
      (((((((((((((((((identity : Matrix ℝ).set 0 0 r.x).set 1 0 r.y).set 2 0 r.z).set 3 0 0).set 0 1
        u.x).set 1 1 u.y).set 2 1 u.z).set 3 1 0).set 0 2 b.x).set 1 2 b.y).set 2 2 b.z).set 3 2
        0).set 0 3 0).set 1 3 0).set 2 3 0).set 3 3 1).IsAffine := by
    intro r u b
    simp [IsAffine, set_mat, identity_mat]
  refine ⟨?_, ?_, hX a M hM, hY a M hM, hZ a M hM, hX _ _ (hZ _ _ (hY _ _ hM)), ?_, ?_, ?_⟩
  · exact isAffine_set (isAffine_set (isAffine_set hM 0 3 (by decide) _) 1 3 (by decide) _)
      2 3 (by decide) _
  · exact isAffine_mul (isAffine_set (isAffine_set (isAffine_set isAffine_identity
      0 0 (by decide) _) 1 1 (by decide) _) 2 2 (by decide) _) hM
  · exact isAffine_mul (hAlign _ _ _) hM
  · exact isAffine_mul (hAlign _ _ _) hM
  · refine isAffine_mul (isAffine_mul (isAffine_mul (hAlign _ _ _) (hY _ _ isAffine_identity)) ?_) hM
    simp [IsAffine, set_mat, identity_mat]
/-- A matrix whose entry `[3][2]` is 1 does not have fourth row `(0, 0, 0, 1)`. -/
theorem not_isAffine_of_mat32 (X : Matrix ℝ) (h : X.mat 3 2 = 1) : ¬ X.IsAffine := by
  rintro ⟨-, -, h2, -⟩
  rw [h] at h2
  exact one_ne_zero h2

/-- Claim C20, the code at `M` the identity, `back = Geo::back`, `right = Geo::right`
and `a = 0`: the fourth row of `M` is `(0, 0, 0, 1)` before `rotateBackRight` and
`(0, 0, 1, 2)` after it, because `m3.mat[3][2]` is set to 1. -/
theorem C20_rotateBackRight_at_identity :
    (identity : Matrix ℝ).IsAffine ∧
    (rotateBackRight Real.sqrt Real.cos Real.sin Geo.back Geo.right 0
      (identity : Matrix ℝ)).mat 3 0 = 0 ∧
    (rotateBackRight Real.sqrt Real.cos Real.sin Geo.back Geo.right 0
      (identity : Matrix ℝ)).mat 3 1 = 0 ∧
    (rotateBackRight Real.sqrt Real.cos Real.sin Geo.back Geo.right 0
      (identity : Matrix ℝ)).mat 3 2 = 1 ∧
    (rotateBackRight Real.sqrt Real.cos Real.sin Geo.back Geo.right 0
      (identity : Matrix ℝ)).mat 3 3 = 2 ∧
    ¬ (rotateBackRight Real.sqrt Real.cos Real.sin Geo.back Geo.right 0
      (identity : Matrix ℝ)).IsAffine := by
  have nb : (Geo.back : Vertex ℝ).normalize Real.sqrt = { x := 0, y := 0, z := 1, w := 1 } := by
    simp [Geo.back, Vertex.ofXYZ, Vertex.normalize, Vertex.norm, Vertex.dot]
  have nr : (Geo.right : Vertex ℝ).normalize Real.sqrt = { x := 1, y := 0, z := 0, w := 1 } := by
    simp [Geo.right, Vertex.ofXYZ, Vertex.normalize, Vertex.norm, Vertex.dot]
  have h32 : (rotateBackRight Real.sqrt Real.cos Real.sin Geo.back Geo.right 0
      (identity : Matrix ℝ)).mat 3 2 = 1 := by
    simp [rotateBackRight, rotateY_zero, mul_identity, nb, nr, Vertex.cross, Vertex.new,
      mul_mat, set_mat, identity_mat]
  refine ⟨isAffine_identity, ?_, ?_, h32, ?_, ?_⟩
  · simp [rotateBackRight, rotateY_zero, mul_identity, nb, nr, Vertex.cross, Vertex.new,
      mul_mat, set_mat, identity_mat]
  · simp [rotateBackRight, rotateY_zero, mul_identity, nb, nr, Vertex.cross, Vertex.new,
      mul_mat, set_mat, identity_mat]
  · simp [rotateBackRight, rotateY_zero, mul_identity, nb, nr, Vertex.cross, Vertex.new,
      mul_mat, set_mat, identity_mat]
    norm_num
  · exact not_isAffine_of_mat32 _ h32

end MatrixFrames

section Binary32

open Matrix

/-- The value of `roundHalfEven` at a number less than half above an integer. -/
theorem roundHalfEven_of_lt (x : ℚ) (n : ℤ) (h1 : (n : ℚ) ≤ x) (h2 : x - n < 1 / 2) :
    roundHalfEven x = n := by
  have hf : ⌊x⌋ = n := by
    rw [Int.floor_eq_iff]
    constructor
    · exact h1
    · linarith
  unfold roundHalfEven
  rw [hf, if_pos h2]

/-- The binary32 value of 0 is 0. -/
theorem round32_zero : round32 0 = 0 := by
  have h : roundHalfEven 0 = 0 := roundHalfEven_of_lt 0 0 (by norm_num) (by norm_num)
  simp [round32, h]

/-- The binary32 value of a positive normal number with binary exponent `e`. -/
theorem round32_of_mem (q : ℚ) (e n : ℤ) (hq : 0 < q) (h1 : (2 : ℚ) ^ e ≤ q)
    (h2 : q < (2 : ℚ) ^ (e + 1)) (he : -126 ≤ e)
    (hn : roundHalfEven (q / 2 ^ (e - 23)) = n) :
    round32 q = n * 2 ^ (e - 23) := by
  have hlog : Int.log 2 |q| = e := by
    rw [abs_of_pos hq]
    apply le_antisymm
    · have := (Int.lt_zpow_iff_log_lt (b := 2) (by norm_num) hq (x := e + 1)).mp
        (by exact_mod_cast h2)
      omega
    · exact (Int.zpow_le_iff_le_log (b := 2) (by norm_num) hq).mp (by exact_mod_cast h1)
  unfold round32
  simp only [hlog, max_eq_left he, hn]

/-- The numbers 1, 5792, 5793, 5794 and 33558848 are binary32 values; the
binary32 value of 33558849 is 33558848. -/
theorem round32_values :
    round32 1 = 1 ∧ round32 5792 = 5792 ∧ round32 5793 = 5793 ∧ round32 5794 = 5794 ∧
    round32 33558848 = 33558848 ∧ round32 33558849 = 33558848 := by
  refine ⟨?_, ?_, ?_, ?_, ?_, ?_⟩
  · rw [round32_of_mem 1 0 (2 ^ 23) (by norm_num) (by norm_num) (by norm_num) (by norm_num)
      (roundHalfEven_of_lt _ _ (by norm_num) (by norm_num))]
    norm_num
  · rw [round32_of_mem 5792 12 (5792 * 2048) (by norm_num) (by norm_num) (by norm_num)
      (by norm_num) (roundHalfEven_of_lt _ _ (by norm_num) (by norm_num))]
    norm_num
  · rw [round32_of_mem 5793 12 (5793 * 2048) (by norm_num) (by norm_num) (by norm_num)
      (by norm_num) (roundHalfEven_of_lt _ _ (by norm_num) (by norm_num))]
    norm_num
  · rw [round32_of_mem 5794 12 (5794 * 2048) (by norm_num) (by norm_num) (by norm_num)
      (by norm_num) (roundHalfEven_of_lt _ _ (by norm_num) (by norm_num))]
    norm_num
  · rw [round32_of_mem 33558848 25 8389712 (by norm_num) (by norm_num) (by norm_num)
      (by norm_num) (roundHalfEven_of_lt _ _ (by norm_num) (by norm_num))]
    norm_num
  · rw [round32_of_mem 33558849 25 8389712 (by norm_num) (by norm_num) (by norm_num)
      (by norm_num) (roundHalfEven_of_lt _ _ (by norm_num) (by norm_num))]
    norm_num

/-- Without rounding, `inverse3x3Rounded` is `inverse3x3`. -/
theorem inverse3x3Rounded_id (M : Matrix ℝ) : inverse3x3Rounded id M = inverse3x3 M := rfl

/-- The entries of `nearSingular`. -/
theorem nearSingular_mat :
    (nearSingular.mat 0 0 = 5793 ∧ nearSingular.mat 0 1 = 5792 ∧ nearSingular.mat 0 2 = 0) ∧
    (nearSingular.mat 1 0 = 5794 ∧ nearSingular.mat 1 1 = 5793 ∧ nearSingular.mat 1 2 = 0) ∧
    (nearSingular.mat 2 0 = 0 ∧ nearSingular.mat 2 1 = 0 ∧ nearSingular.mat 2 2 = 1) := by
  simp [nearSingular, set_mat, identity_mat]

/-- Claim C9 fails as stated. In binary32 the test `d == 0.0f` is on the rounded `d`.
The entries of `nearSingular` are binary32 values and its leading 3×3 block has
determinant 1, but `5793 * 5793 = 33558849` rounds to `33558848 = 5792 * 5794`, so
the rounded `d` is 0 and the method returns the zero matrix, whose entry `[3][3]`
is 0, not 1. -/
theorem C9_inverse3x3_counterexample :
    (∀ i j, round32 (nearSingular.mat i j) = nearSingular.mat i j) ∧
    Matrix.det (block3 nearSingular) = 1 ∧
    inverse3x3Rounded round32 nearSingular = zero ∧
    (inverse3x3Rounded round32 nearSingular).mat 3 3 = 0 := by
  obtain ⟨r1, r5792, r5793, r5794, rB, rA⟩ := round32_values
  obtain ⟨⟨m00, m01, m02⟩, ⟨m10, m11, m12⟩, ⟨m20, m21, m22⟩⟩ := nearSingular_mat
  have hz : inverse3x3Rounded round32 nearSingular = zero := by
    have hd : round32 (round32 (round32 (nearSingular.mat 0 0 *
          round32 (round32 (nearSingular.mat 1 1 * nearSingular.mat 2 2)
            - round32 (nearSingular.mat 2 1 * nearSingular.mat 1 2)))
        - round32 (nearSingular.mat 0 1 *
          round32 (round32 (nearSingular.mat 1 0 * nearSingular.mat 2 2)
            - round32 (nearSingular.mat 1 2 * nearSingular.mat 2 0))))
        + round32 (nearSingular.mat 0 2 *
          round32 (round32 (nearSingular.mat 1 0 * nearSingular.mat 2 1)
            - round32 (nearSingular.mat 1 1 * nearSingular.mat 2 0)))) = 0 := by
      rw [m00, m01, m02, m10, m11, m12, m20, m21, m22]
      norm_num [round32_zero, r5793, r5794, rA, rB]
    simp only [inverse3x3Rounded, if_pos hd]
  refine ⟨?_, ?_, hz, ?_⟩
  · intro i j
    fin_cases i <;> fin_cases j <;>
      simp [nearSingular, set_mat, identity_mat, round32_zero, r1, r5792, r5793, r5794]
  · rw [det_block3, m00, m01, m02, m10, m11, m12, m20, m21, m22]
    norm_num
  · rw [hz, zero_mat]

end Binary32

section Binary32Checks

/-- The value of `roundHalfEven` at a number more than half above an integer
and below the next one. -/
theorem roundHalfEven_of_gt (x : ℚ) (n : ℤ) (h1 : 1 / 2 < x - n) (h2 : x < n + 1) :
    roundHalfEven x = n + 1 := by
  have hf : ⌊x⌋ = n := by
    rw [Int.floor_eq_iff]
    constructor
    · linarith
    · exact h2
  unfold roundHalfEven
  rw [hf, if_neg (not_lt.mpr h1.le), if_pos h1]

/-- The value of `roundHalfEven` half way between two integers: the even one. -/
theorem roundHalfEven_of_half (x : ℚ) (n : ℤ) (h : x - n = 1 / 2) :
    roundHalfEven x = if n % 2 = 0 then n else n + 1 := by
  have hf : ⌊x⌋ = n := by
    rw [Int.floor_eq_iff]
    constructor
    · linarith
    · linarith
  unfold roundHalfEven
  rw [hf, if_neg (not_lt.mpr h.ge), if_neg (not_lt.mpr h.le)]

/-- Known binary32 values: `0.1f` is `13421773 / 2^27` (rounded up), and the two
ties `16785409` and `16785411` go to the neighbours with an even significand,
`16785408` and `16785412`. -/
theorem round32_checks :
    round32 (1 / 10) = 13421773 / 134217728 ∧
    round32 16785409 = 16785408 ∧
    round32 16785411 = 16785412 := by
  refine ⟨?_, ?_, ?_⟩
  · rw [round32_of_mem (1 / 10) (-4) (13421772 + 1) (by norm_num) (by norm_num) (by norm_num)
      (by norm_num) (roundHalfEven_of_gt _ _ (by norm_num) (by norm_num))]
    norm_num
  · rw [round32_of_mem 16785409 24 8392704 (by norm_num) (by norm_num) (by norm_num)
      (by norm_num)
      ((roundHalfEven_of_half _ 8392704 (by norm_num)).trans (by norm_num))]
    norm_num
  · rw [round32_of_mem 16785411 24 8392706 (by norm_num) (by norm_num) (by norm_num)
      (by norm_num)
      ((roundHalfEven_of_half _ 8392705 (by norm_num)).trans (by norm_num))]
    norm_num

end Binary32Checks

end LE3D
